import Mathlib

/-!
# Dinosaur Jump: a shallow embedding of the game core of `main.go`

The game state of `main.go` is embedded as plain Lean structures and the
methods `init`, `Update`, `hit`, `tree.move`, `tree.show`, `tree.hide`,
`tree.isOutOfScreen` and `ground.move` as total functions on them.

Modelling conventions.

* Go's `int` is modelled by the unbounded `Int`: the wrap-around of the machine
  word is not modelled.  Division and remainder are Go's truncated operators,
  `Int.tdiv` and `Int.tmod`.
* The pool `trees [maxTreeCount]*tree` is a `List tree`; `init` fills it with
  `maxTreeCount` fresh records.  Each slot is a separate record, as after `init`.
* The key state read by `isKeyJustPressed` is the Boolean argument `key` of
  `Update`.
* The global random source is a stream `rnd : Nat → Nat` handed to each tick;
  the `k`-th call of `rand.Intn(n)` within the tick returns `rnd k % n`.
-/

namespace DinosaurJump

set_option maxRecDepth 100000

/-! ## Constants (`main.go`, lines 23-55) -/

def screenX : Int := 640
def screenY : Int := 480
def baseX : Int := 100
def groundY : Int := 400
def speed : Int := 6
def jumpingPower : Int := 15
def gravity : Int := 1
def interval : Int := 10
def minTreeDist : Int := 50
def maxTreeCount : Nat := 3

def modeTitle : Int := 0
def modeGame : Int := 1
def modeGameover : Int := 2

def kindTreeSmall : Int := 0
def kindTreeBig : Int := 1

def dinosaurHeight : Int := 50
def dinosaurWidth : Int := 100
def groundHeight : Int := 50
def groundWidth : Int := 50
def treeSmallWidth : Int := 25
def treeSmallHeghit : Int := 50
def treeBigWidth : Int := 25
def treeBigHeghit : Int := 75

/-! ## Obstacles -/

/-- The record `tree` of `main.go`. -/
structure tree where
  x : Int
  y : Int
  kind : Int
  visible : Bool
  deriving DecidableEq

/-- The zero value `&tree{}`. -/
def tree.zero : tree := { x := 0, y := 0, kind := 0, visible := false }

/-- Method `tree.move`: `t.x -= speed`. -/
def tree.move (t : tree) (speed : Int) : tree :=
  { t with x := t.x - speed }

/-- Method `tree.show`; `r` is the value returned by `rand.Intn(2)`. -/
def tree.show (t : tree) (r : Int) : tree :=
  let t1 := { t with kind := r }
  let t2 := { t1 with x := screenX }
  let t3 :=
    if t2.kind = kindTreeSmall then { t2 with y := groundY - treeSmallHeghit }
    else if t2.kind = kindTreeBig then { t2 with y := groundY - treeBigHeghit }
    else t2
  { t3 with visible := true }

/-- Method `tree.hide`. -/
def tree.hide (t : tree) : tree :=
  { t with visible := false }

/-- Method `tree.isOutOfScreen`: `t.x < -50`. -/
def tree.isOutOfScreen (t : tree) : Bool :=
  decide (t.x < -50)

/-! ## Ground -/

/-- The record `ground` of `main.go`. -/
structure ground where
  x : Int
  y : Int
  deriving DecidableEq

/-- Method `ground.move`. -/
def ground.move (g : ground) (speed : Int) : ground :=
  let g1 := { g with x := g.x - speed }
  if g1.x < -groundWidth then { g1 with x := g1.x + groundWidth } else g1

/-! ## Game state -/

/-- The record `Game` of `main.go`. -/
structure Game where
  mode : Int
  count : Int
  score : Int
  hiscore : Int
  dinosaurX : Int
  dinosaurY : Int
  gy : Int
  jumpFlg : Bool
  trees : List tree
  lastTreeX : Int
  ground : ground
  deriving DecidableEq

/-- The zero value `&Game{}` (no obstacle record allocated yet). -/
def Game.zero : Game :=
  { mode := 0, count := 0, score := 0, hiscore := 0, dinosaurX := 0, dinosaurY := 0,
    gy := 0, jumpFlg := false, trees := [], lastTreeX := 0, ground := { x := 0, y := 0 } }

/-- Method `Game.init` (lines 192-207). -/
def Game.init (g : Game) : Game :=
  let g1 := if g.hiscore < g.score then { g with hiscore := g.score } else g
  { g1 with
    count := 0
    score := 0
    lastTreeX := 0
    gy := 0
    dinosaurX := baseX
    dinosaurY := groundY - dinosaurHeight
    trees := List.replicate maxTreeCount tree.zero
    ground := { x := 0, y := groundY - 30 } }

/-- Function `NewGame` (lines 185-189). -/
def NewGame : Game := Game.zero.init

/-- The body of the loop of `hit` over the pool (lines 359-369), with the
three player bounds computed before the loop. -/
def hitLoop (hitDinosaurMinX hitDinosaurMaxX hitDinosaurMaxY : Int) : List tree → Bool
  | [] => false
  | t :: ts =>
    let hitTreeMinX := t.x + 5
    let hitTreeMaxX := t.x + treeSmallWidth - 5
    let hitTreeMinY := t.y + 5
    if t.visible &&
        (decide (hitDinosaurMaxX - hitTreeMinX > 0) &&
          (decide (hitTreeMaxX - hitDinosaurMinX > 0) &&
            decide (hitDinosaurMaxY - hitTreeMinY > 0))) then
      true
    else
      hitLoop hitDinosaurMinX hitDinosaurMaxX hitDinosaurMaxY ts

/-- Method `Game.hit` (lines 354-371). -/
def Game.hit (g : Game) : Bool :=
  let hitDinosaurMinX := g.dinosaurX + 20
  let hitDinosaurMaxX := g.dinosaurX + dinosaurWidth - 15
  let hitDinosaurMaxY := g.dinosaurY + dinosaurHeight - 10
  hitLoop hitDinosaurMinX hitDinosaurMaxX hitDinosaurMaxY g.trees

/-- The loop over the pool in `Update` (lines 234-247).  `count` is the
incremented tick counter, `rnd` the random stream of the tick, `lastTreeX` the
current value of `g.lastTreeX` and `k` the number of draws made so far.  The
result is the pool and the value of `g.lastTreeX` after the loop.  The draw
`rand.Intn(10)` is made only when the two tests before it hold, and a spawn
leaves the loop, so that the remaining slots are returned as they are. -/
def treeLoop (count : Int) (rnd : Nat → Nat) :
    Int → Nat → List tree → List tree × Int
  | lastTreeX, _, [] => ([], lastTreeX)
  | lastTreeX, k, t :: ts =>
    if t.visible then
      let t1 := t.move speed
      let t2 := if t1.isOutOfScreen then t1.hide else t1
      let r := treeLoop count rnd lastTreeX k ts
      (t2 :: r.1, r.2)
    else if count - lastTreeX > minTreeDist ∧ count.tmod interval = 0 then
      if rnd k % 10 = 0 then
        (t.show ((rnd (k + 1) % 2 : Nat) : Int) :: ts, count)
      else
        let r := treeLoop count rnd lastTreeX (k + 1) ts
        (t :: r.1, r.2)
    else
      let r := treeLoop count rnd lastTreeX k ts
      (t :: r.1, r.2)

/-- The counter block of a playing tick (lines 217-218): `g.count++` and then
`g.score = g.count / 5`. -/
def Game.countStep (g : Game) : Game :=
  let g1 := { g with count := g.count + 1 }
  { g1 with score := g1.count.tdiv 5 }

/-- The jump block of a playing tick (lines 220-232). -/
def Game.jumpStep (g : Game) (key : Bool) : Game :=
  let g1 := if !g.jumpFlg && key then { g with jumpFlg := true, gy := -jumpingPower } else g
  let g2 :=
    if g1.jumpFlg then
      let g1a := { g1 with dinosaurY := g1.dinosaurY + g1.gy }
      { g1a with gy := g1a.gy + gravity }
    else g1
  if g2.dinosaurY ≥ groundY - dinosaurHeight then { g2 with jumpFlg := false } else g2

/-- The obstacle block of a playing tick (lines 234-247). -/
def Game.treeStep (g : Game) (rnd : Nat → Nat) : Game :=
  let r := treeLoop g.count rnd g.lastTreeX 0 g.trees
  { g with trees := r.1, lastTreeX := r.2 }

/-- The ground block of a playing tick (line 249). -/
def Game.groundStep (g : Game) : Game :=
  { g with ground := g.ground.move speed }

/-- The collision block of a playing tick (lines 251-253). -/
def Game.hitStep (g : Game) : Game :=
  if g.hit then { g with mode := modeGameover } else g

/-- The case `modeGame` of `Update` (lines 217-253). -/
def Game.playing (g : Game) (key : Bool) (rnd : Nat → Nat) : Game :=
  ((((g.countStep).jumpStep key).treeStep rnd).groundStep).hitStep

/-- Method `Game.Update` (lines 210-262): one tick with key state `key` and
random stream `rnd`. -/
def Game.Update (g : Game) (key : Bool) (rnd : Nat → Nat) : Game :=
  if g.mode = modeTitle then
    if key then { g with mode := modeGame } else g
  else if g.mode = modeGame then
    g.playing key rnd
  else if g.mode = modeGameover then
    if key then { g.init with mode := modeGame } else g
  else g

/-- One input of a tick: the key state and the random stream. -/
abbrev Tick := Bool × (Nat → Nat)

/-- Run a sequence of ticks. -/
def run (g : Game) : List Tick → Game
  | [] => g
  | i :: is => run (g.Update i.1 i.2) is

/-- The states reachable from `NewGame()` by `Update` ticks. -/
inductive Reachable : Game → Prop
  | start : Reachable NewGame
  | tick (g : Game) (key : Bool) (rnd : Nat → Nat) :
      Reachable g → Reachable (g.Update key rnd)


/-! ## Input sequences used in the examples -/

/-- A tick without key press in which every draw of `rand.Intn(10)` is 1. -/
def quietTick : Tick := (false, fun _ => 1)

/-- A tick with key press in which every draw of `rand.Intn(10)` is 1. -/
def keyTick : Tick := (true, fun _ => 1)

/-- A tick without key press in which every draw is 0: the first slot that is
not visible, if the spawn tests hold, is shown as a small obstacle. -/
def spawnTick : Tick := (false, fun _ => 0)

/-- Leave the title screen, then 25 playing ticks without key and without spawn. -/
def quietTrace : List Tick := keyTick :: List.replicate 25 quietTick

/-- Leave the title screen, let an obstacle spawn at tick 60 and run into it at
rest: the game is over at tick 137. -/
def crashTrace : List Tick :=
  keyTick :: (List.replicate 59 quietTick ++ spawnTick :: List.replicate 77 quietTick)

/-- The ground after `n` calls of `ground.move(speed)`, starting from the
ground built by `init` (offset 0). -/
def groundAfter : Nat → ground
  | 0 => { x := 0, y := groundY - 30 }
  | n + 1 => (groundAfter n).move speed

/-- A state in GameOver mode with score 12 and high score 8. -/
def gameOver12 : Game :=
  { NewGame with mode := modeGameover, count := 60, score := 12, hiscore := 8 }

/-! ## Slots that become visible -/

/-- Slot `i` exists in both pools, is not visible in `ts` and is visible in `ts'`. -/
def shownAt (ts ts' : List tree) (i : Nat) : Bool :=
  match ts[i]?, ts'[i]? with
  | some t, some t' => !t.visible && t'.visible
  | _, _ => false

/-- The number of slots among the first `i` of `ts` that are not visible. -/
def hiddenBefore (ts : List tree) (i : Nat) : Nat :=
  ((ts.take i).filter (fun t => !t.visible)).length

/-- Leave the title screen, then 59 playing ticks without key and without spawn. -/
def waitTrace : List Tick := keyTick :: List.replicate 59 quietTick

/-- A random stream whose first draw is 1 and whose other draws are 0. -/
def secondDrawWins : Nat → Nat := fun k => if k = 0 then 1 else 0

/-- Leave the title screen; obstacles spawn at ticks 60 (slot 0) and 120
(slot 1); the player jumps at tick 135 over the first one; 175 playing ticks. -/
def twoTreesTrace : List Tick :=
  keyTick :: (List.replicate 59 quietTick ++ spawnTick ::
    (List.replicate 59 quietTick ++ spawnTick ::
      (List.replicate 14 quietTick ++ keyTick :: List.replicate 40 quietTick)))

/-- The trace `twoTreesTrace` followed by four more quiet ticks, 179 playing
ticks in all: the first obstacle has left the screen at tick 176. -/
def stallTrace : List Tick := twoTreesTrace ++ List.replicate 4 quietTick

/-- Leave the title screen, let an obstacle spawn at tick 60, jump at tick 137
into it, and press the key again on the GameOver screen. -/
def airCrashTrace : List Tick :=
  keyTick :: (List.replicate 59 quietTick ++ spawnTick ::
    (List.replicate 76 quietTick ++ [keyTick, keyTick]))

/-- The player at rest at (100, 350) and a single visible small obstacle at
`x = 30`, `y = 350`. -/
def restWithTreeAt30 : Game :=
  { NewGame with
    trees := [{ x := 30, y := 350, kind := kindTreeSmall, visible := true }, tree.zero,
      tree.zero] }

/-- The player at rest and a visible small obstacle at `x = 130` in the last
slot: a collision. -/
def restWithTreeAt130 : Game :=
  { NewGame with
    trees := [tree.zero, { x := 700, y := 325, kind := kindTreeBig, visible := true },
      { x := 130, y := 350, kind := kindTreeSmall, visible := true }] }

/-! ## Reference definitions taken from the specification -/

/-- Reference rule for the jump step, written from the specification
(section 4.2), on the triple vertical position, velocity, jump flag: a jump
triggers only if not already jumping and the key edge fires (flag set, velocity
`-15`); while jumping, including the trigger tick, the position increases by
the velocity and then the velocity by 1; the flag is cleared when the position
is at or beyond 350. -/
def jumpRule (y gy : Int) (flag key : Bool) : Int × Int × Bool :=
  let trigger := !flag && key
  let flag1 := if trigger then true else flag
  let gy1 := if trigger then -15 else gy
  let y2 := if flag1 then y + gy1 else y
  let gy2 := if flag1 then gy1 + 1 else gy1
  let flag3 := if y2 ≥ 350 then false else flag1
  (y2, gy2, flag3)

/-- The width of an obstacle of the given kind: `treeSmallWidth` for a small
one, `treeBigWidth` for a big one. -/
def treeWidth (kind : Int) : Int :=
  if kind = kindTreeBig then treeBigWidth else treeSmallWidth

/-- Variant of the loop of `hit` that uses the width of the obstacle's own kind
for the right bound of its hitbox. -/
def hitLoopKindWidth (hitDinosaurMinX hitDinosaurMaxX hitDinosaurMaxY : Int) :
    List tree → Bool
  | [] => false
  | t :: ts =>
    let hitTreeMinX := t.x + 5
    let hitTreeMaxX := t.x + treeWidth t.kind - 5
    let hitTreeMinY := t.y + 5
    if t.visible &&
        (decide (hitDinosaurMaxX - hitTreeMinX > 0) &&
          (decide (hitTreeMaxX - hitDinosaurMinX > 0) &&
            decide (hitDinosaurMaxY - hitTreeMinY > 0))) then
      true
    else
      hitLoopKindWidth hitDinosaurMinX hitDinosaurMaxX hitDinosaurMaxY ts

/-- Variant of `hit` with the kind-specific obstacle width. -/
def Game.hitKindWidth (g : Game) : Bool :=
  let hitDinosaurMinX := g.dinosaurX + 20
  let hitDinosaurMaxX := g.dinosaurX + dinosaurWidth - 15
  let hitDinosaurMaxY := g.dinosaurY + dinosaurHeight - 10
  hitLoopKindWidth hitDinosaurMinX hitDinosaurMaxX hitDinosaurMaxY g.trees

/-- The state of a playing tick just before the collision test: counter, jump,
obstacles and ground have been updated (lines 217-249). -/
def Game.beforeHit (g : Game) (key : Bool) (rnd : Nat → Nat) : Game :=
  (((g.countStep).jumpStep key).treeStep rnd).groundStep

/-- The ticks without key press built from a list of random streams. -/
def noKeyTicks (rs : List (Nat → Nat)) : List Tick := rs.map (fun r => (false, r))

/-- The player in the air over a big obstacle, in Playing mode with the jump
flag set. -/
def inTheAir : Game :=
  { NewGame with
    mode := modeGame, count := 140, score := 28, dinosaurY := 245, gy := -9, jumpFlg := true,
    lastTreeX := 60,
    trees := [{ x := 160, y := 325, kind := kindTreeBig, visible := true }, tree.zero,
      tree.zero] }

/-! ## The jump arc -/

/-- The pair height, velocity is on the arc of a jump from rest: for some
`j` from 1 to 30, the number of ticks since the jump started, the velocity is
`j - 15` and the height is `350 - j * (31 - j) / 2`. -/
def onJumpArc (y gy : Int) : Prop :=
  ∃ j : Nat, 1 ≤ j ∧ j ≤ 30 ∧ gy = (j : Int) - 15 ∧ 2 * y = 700 - (j : Int) * (31 - (j : Int))

/-- The invariant of height, velocity and jump flag: at rest on the ground, or
in the air on the arc of a jump, or just restarted with the flag still set. -/
def jumpInv (y gy : Int) (flag : Bool) : Prop :=
  (flag = false ∧ y = 350) ∨ (flag = true ∧ onJumpArc y gy) ∨
    (flag = true ∧ y = 350 ∧ gy = 0)

/-- Leave the title screen, start a jump in the first playing tick and let it
run without key: `n` playing ticks in all, for `n ≥ 1`. -/
def jumpTicks (n : Nat) : List Tick :=
  keyTick :: keyTick :: List.replicate (n - 1) quietTick

/-! ## Spawns along a run -/

/-- The effect of the loop body on a slot in which nothing is shown (lines
235-239): a visible obstacle moves by `speed` and is hidden when it is out of
the screen, a slot that is not visible is left as it is. -/
def tree.scroll (t : tree) : tree :=
  if t.visible then
    if (t.move speed).isOutOfScreen then (t.move speed).hide else t.move speed
  else t

/-- Some slot of the pool of `g` is not visible in `g` and visible in `g'`. -/
def spawned (g g' : Game) : Bool :=
  (List.range g.trees.length).any (fun i => shownAt g.trees g'.trees i)

/-- The tick counts of the spawns of the current session, most recent first,
after running the ticks from state `g`; `acc` is the log so far.  A restart
(key press in GameOver mode, which calls `init`) empties the log. -/
def spawnLog : Game → List Int → List Tick → List Int
  | _, acc, [] => acc
  | g, acc, i :: is =>
    let g' := g.Update i.1 i.2
    let acc' :=
      if g.mode = modeGameover ∧ i.1 = true then []
      else if spawned g g' then g'.count :: acc
      else acc
    spawnLog g' acc' is

/-- The invariant that links the log of spawns to the state. -/
def LogInv (g : Game) (acc : List Int) : Prop :=
  0 ≤ g.lastTreeX ∧ g.lastTreeX ≤ g.count ∧ g.lastTreeX % 10 = 0 ∧
    (acc = [] → g.lastTreeX = 0) ∧ (∀ c ∈ acc.head?, c = g.lastTreeX) ∧
    (∀ c ∈ acc, c % 10 = 0 ∧ 60 ≤ c) ∧
    List.Chain' (fun later earlier => earlier + 60 ≤ later) acc

/-! ## Visible obstacles -/

/-- Two obstacles that are both visible are at least 354 apart. -/
def farApart (a b : tree) : Prop :=
  a.visible = true → b.visible = true → a.x + 354 ≤ b.x ∨ b.x + 354 ≤ a.x

/-- The invariant of the pool: `lastTreeX` is a multiple of 10 between 0 and
the tick counter, every visible obstacle has `x` between `-50` and
`640 - 6 * (count - lastTreeX)`, and visible obstacles are far apart. -/
def TreeInv (g : Game) : Prop :=
  0 ≤ g.lastTreeX ∧ g.lastTreeX ≤ g.count ∧ g.lastTreeX % 10 = 0 ∧
    (∀ t ∈ g.trees, t.visible = true → -50 ≤ t.x ∧ t.x ≤ 640 - 6 * (g.count - g.lastTreeX)) ∧
    g.trees.Pairwise farApart

/-- A random stream whose first two draws are 1 and whose other draws are 0. -/
def thirdDrawWins : Nat → Nat := fun k => if k < 2 then 1 else 0

/-! ## Basic facts about one tick -/

theorem reachable_run {g : Game} (h : Reachable g) (is : List Tick) : Reachable (run g is) := by
  induction is generalizing g with
  | nil => exact h
  | cons i is ih => exact ih (Reachable.tick g i.1 i.2 h)

theorem Update_title (g : Game) (key : Bool) (rnd : Nat → Nat) (h : g.mode = modeTitle) :
    g.Update key rnd = if key then { g with mode := modeGame } else g := by
  simp [Game.Update, h]

theorem Update_game (g : Game) (key : Bool) (rnd : Nat → Nat) (h : g.mode = modeGame) :
    g.Update key rnd = g.playing key rnd := by
  simp [Game.Update, h, modeTitle, modeGame]

theorem Update_gameover (g : Game) (key : Bool) (rnd : Nat → Nat) (h : g.mode = modeGameover) :
    g.Update key rnd = if key then { g.init with mode := modeGame } else g := by
  simp [Game.Update, h, modeGameover, modeTitle, modeGame]

theorem Update_other (g : Game) (key : Bool) (rnd : Nat → Nat) (h0 : g.mode ≠ modeTitle)
    (h1 : g.mode ≠ modeGame) (h2 : g.mode ≠ modeGameover) : g.Update key rnd = g := by
  simp [Game.Update, h0, h1, h2]

/-- The four cases of `Update`. -/
theorem Update_cases (g : Game) (key : Bool) (rnd : Nat → Nat) :
    (g.mode = modeTitle ∧ g.Update key rnd = if key then { g with mode := modeGame } else g) ∨
    (g.mode = modeGame ∧ g.Update key rnd = g.playing key rnd) ∨
    (g.mode = modeGameover ∧
      g.Update key rnd = if key then { g.init with mode := modeGame } else g) ∨
    g.Update key rnd = g := by
  by_cases h0 : g.mode = modeTitle
  · exact Or.inl ⟨h0, Update_title g key rnd h0⟩
  by_cases h1 : g.mode = modeGame
  · exact Or.inr (Or.inl ⟨h1, Update_game g key rnd h1⟩)
  by_cases h2 : g.mode = modeGameover
  · exact Or.inr (Or.inr (Or.inl ⟨h2, Update_gameover g key rnd h2⟩))
  · exact Or.inr (Or.inr (Or.inr (Update_other g key rnd h0 h1 h2)))

@[simp] theorem hitStep_count (g : Game) : g.hitStep.count = g.count := by
  unfold Game.hitStep; split_ifs <;> rfl
@[simp] theorem hitStep_score (g : Game) : g.hitStep.score = g.score := by
  unfold Game.hitStep; split_ifs <;> rfl
@[simp] theorem hitStep_hiscore (g : Game) : g.hitStep.hiscore = g.hiscore := by
  unfold Game.hitStep; split_ifs <;> rfl
@[simp] theorem hitStep_dinosaurX (g : Game) : g.hitStep.dinosaurX = g.dinosaurX := by
  unfold Game.hitStep; split_ifs <;> rfl
@[simp] theorem hitStep_dinosaurY (g : Game) : g.hitStep.dinosaurY = g.dinosaurY := by
  unfold Game.hitStep; split_ifs <;> rfl
@[simp] theorem hitStep_gy (g : Game) : g.hitStep.gy = g.gy := by
  unfold Game.hitStep; split_ifs <;> rfl
@[simp] theorem hitStep_jumpFlg (g : Game) : g.hitStep.jumpFlg = g.jumpFlg := by
  unfold Game.hitStep; split_ifs <;> rfl
@[simp] theorem hitStep_trees (g : Game) : g.hitStep.trees = g.trees := by
  unfold Game.hitStep; split_ifs <;> rfl
@[simp] theorem hitStep_lastTreeX (g : Game) : g.hitStep.lastTreeX = g.lastTreeX := by
  unfold Game.hitStep; split_ifs <;> rfl
@[simp] theorem hitStep_ground (g : Game) : g.hitStep.ground = g.ground := by
  unfold Game.hitStep; split_ifs <;> rfl

@[simp] theorem jumpStep_mode (g : Game) (key : Bool) : (g.jumpStep key).mode = g.mode := by
  unfold Game.jumpStep; simp only []; split_ifs <;> rfl
@[simp] theorem jumpStep_count (g : Game) (key : Bool) : (g.jumpStep key).count = g.count := by
  unfold Game.jumpStep; simp only []; split_ifs <;> rfl
@[simp] theorem jumpStep_score (g : Game) (key : Bool) : (g.jumpStep key).score = g.score := by
  unfold Game.jumpStep; simp only []; split_ifs <;> rfl
@[simp] theorem jumpStep_hiscore (g : Game) (key : Bool) :
    (g.jumpStep key).hiscore = g.hiscore := by
  unfold Game.jumpStep; simp only []; split_ifs <;> rfl
@[simp] theorem jumpStep_dinosaurX (g : Game) (key : Bool) :
    (g.jumpStep key).dinosaurX = g.dinosaurX := by
  unfold Game.jumpStep; simp only []; split_ifs <;> rfl
@[simp] theorem jumpStep_trees (g : Game) (key : Bool) : (g.jumpStep key).trees = g.trees := by
  unfold Game.jumpStep; simp only []; split_ifs <;> rfl
@[simp] theorem jumpStep_lastTreeX (g : Game) (key : Bool) :
    (g.jumpStep key).lastTreeX = g.lastTreeX := by
  unfold Game.jumpStep; simp only []; split_ifs <;> rfl
@[simp] theorem jumpStep_ground (g : Game) (key : Bool) : (g.jumpStep key).ground = g.ground := by
  unfold Game.jumpStep; simp only []; split_ifs <;> rfl

@[simp] theorem playing_count (g : Game) (key : Bool) (rnd : Nat → Nat) :
    (g.playing key rnd).count = g.count + 1 := by
  simp [Game.playing, Game.groundStep, Game.treeStep, Game.countStep]
@[simp] theorem playing_score (g : Game) (key : Bool) (rnd : Nat → Nat) :
    (g.playing key rnd).score = (g.count + 1).tdiv 5 := by
  simp [Game.playing, Game.groundStep, Game.treeStep, Game.countStep]
@[simp] theorem playing_hiscore (g : Game) (key : Bool) (rnd : Nat → Nat) :
    (g.playing key rnd).hiscore = g.hiscore := by
  simp [Game.playing, Game.groundStep, Game.treeStep, Game.countStep]
@[simp] theorem playing_dinosaurX (g : Game) (key : Bool) (rnd : Nat → Nat) :
    (g.playing key rnd).dinosaurX = g.dinosaurX := by
  simp [Game.playing, Game.groundStep, Game.treeStep, Game.countStep]
@[simp] theorem playing_ground (g : Game) (key : Bool) (rnd : Nat → Nat) :
    (g.playing key rnd).ground = g.ground.move speed := by
  simp [Game.playing, Game.groundStep, Game.treeStep, Game.countStep]
@[simp] theorem playing_trees (g : Game) (key : Bool) (rnd : Nat → Nat) :
    (g.playing key rnd).trees = (treeLoop (g.count + 1) rnd g.lastTreeX 0 g.trees).1 := by
  simp [Game.playing, Game.groundStep, Game.treeStep, Game.countStep]
@[simp] theorem playing_lastTreeX (g : Game) (key : Bool) (rnd : Nat → Nat) :
    (g.playing key rnd).lastTreeX = (treeLoop (g.count + 1) rnd g.lastTreeX 0 g.trees).2 := by
  simp [Game.playing, Game.groundStep, Game.treeStep, Game.countStep]

/-! ## Score and high score -/

theorem reachable_score_count {g : Game} (h : Reachable g) :
    g.score = g.count.tdiv 5 ∧ 0 ≤ g.count := by
  induction h with
  | start => decide
  | tick g key rnd _ ih =>
    rcases Update_cases g key rnd with ⟨_, e⟩ | ⟨_, e⟩ | ⟨_, e⟩ | e <;> rw [e]
    · split_ifs <;> exact ih
    · simp only [playing_count, playing_score, true_and]; omega
    · split_ifs
      · exact ⟨by simp [Game.init], by simp [Game.init]⟩
      · exact ih
    · exact ih

theorem init_hiscore (g : Game) : g.init.hiscore = max g.hiscore g.score := by
  unfold Game.init
  by_cases h : g.hiscore < g.score
  · simp only [h, if_true]; omega
  · simp only [h, if_false]; omega

/-- The ground offset stays in the closed interval from `-groundWidth` to 0
under `ground.move(speed)`. -/
theorem ground_move_bounds (gr : ground) (h : -groundWidth ≤ gr.x ∧ gr.x ≤ 0) :
    -groundWidth ≤ (gr.move speed).x ∧ (gr.move speed).x ≤ 0 := by
  unfold ground.move
  simp only [groundWidth, speed] at *
  split_ifs with h1 <;> simp only [] at * <;> omega

theorem reachable_ground {g : Game} (h : Reachable g) :
    -groundWidth ≤ g.ground.x ∧ g.ground.x ≤ 0 := by
  induction h with
  | start => decide
  | tick g key rnd _ ih =>
    rcases Update_cases g key rnd with ⟨_, e⟩ | ⟨_, e⟩ | ⟨_, e⟩ | e <;> rw [e]
    · split_ifs <;> exact ih
    · rw [playing_ground]; exact ground_move_bounds _ ih
    · split_ifs
      · simp [Game.init, groundWidth]
      · exact ih
    · exact ih

/-! ## The claims -/

/-- C1: in every state reachable from `NewGame()` by `Update` ticks the score
is the tick counter divided by 5, both with Go's truncated division and with
the floor (the counter is never negative); and a tick taken in GameOver mode
without the key leaves the score unchanged. -/
theorem C1_score_eq_count_div_five (g : Game) (h : Reachable g) :
    g.score = g.count.tdiv 5 ∧ g.score = g.count / 5 ∧
      ∀ rnd : Nat → Nat, g.mode = modeGameover → (g.Update false rnd).score = g.score := by
  obtain ⟨h1, h2⟩ := reachable_score_count h
  refine ⟨h1, ?_, ?_⟩
  · rw [h1, Int.tdiv_eq_ediv h2 (by decide)]
  · intro rnd hm
    rw [Update_gameover g false rnd hm]
    rfl

/-- Witness of C1: the state after `crashTrace` is reachable, in GameOver mode,
with tick counter 137 and score 27. -/
theorem C1_score_eq_count_div_five_witness :
    Reachable (run NewGame crashTrace) ∧ (run NewGame crashTrace).mode = modeGameover ∧
      (run NewGame crashTrace).count = 137 ∧ (run NewGame crashTrace).score = 27 ∧
      ((run NewGame crashTrace).score = (run NewGame crashTrace).count.tdiv 5 ∧
        (run NewGame crashTrace).score = (run NewGame crashTrace).count / 5 ∧
        ∀ rnd : Nat → Nat, (run NewGame crashTrace).mode = modeGameover →
          ((run NewGame crashTrace).Update false rnd).score = (run NewGame crashTrace).score) :=
  ⟨reachable_run Reachable.start crashTrace, by decide, by decide, by decide,
    C1_score_eq_count_div_five (run NewGame crashTrace)
      (reachable_run Reachable.start crashTrace)⟩

/-- C2: the high score never decreases: for every game state, `init` and every
`Update` tick (any mode, any key state, any random draws) yield a high score
that is at least the high score before the call. -/
theorem C2_hiscore_monotone (g : Game) (key : Bool) (rnd : Nat → Nat) :
    g.hiscore ≤ g.init.hiscore ∧ g.hiscore ≤ (g.Update key rnd).hiscore := by
  have hi : g.hiscore ≤ g.init.hiscore := by rw [init_hiscore]; exact le_max_left _ _
  refine ⟨hi, ?_⟩
  rcases Update_cases g key rnd with ⟨_, e⟩ | ⟨_, e⟩ | ⟨_, e⟩ | e <;> rw [e]
  · split_ifs <;> exact le_refl _
  · rw [playing_hiscore]
  · split_ifs
    · exact hi
    · exact le_refl _

/-- C3: for every state in GameOver mode, a tick with the key pressed yields
mode Playing, high score `max hiscore score`, tick counter 0, score 0,
`lastTreeX` 0, velocity 0, player position (100, 350), a pool of three slots
none of which is visible, and ground offset 0. -/
theorem C3_restart_after_gameover (g : Game) (rnd : Nat → Nat) (h : g.mode = modeGameover) :
    (g.Update true rnd).mode = modeGame ∧
      (g.Update true rnd).hiscore = max g.hiscore g.score ∧
      (g.Update true rnd).count = 0 ∧ (g.Update true rnd).score = 0 ∧
      (g.Update true rnd).lastTreeX = 0 ∧ (g.Update true rnd).gy = 0 ∧
      (g.Update true rnd).dinosaurX = 100 ∧ (g.Update true rnd).dinosaurY = 350 ∧
      (g.Update true rnd).trees.length = 3 ∧
      (∀ t ∈ (g.Update true rnd).trees, t.visible = false) ∧
      (g.Update true rnd).ground.x = 0 := by
  rw [Update_gameover g true rnd h, if_pos rfl]
  refine ⟨rfl, init_hiscore g, rfl, rfl, rfl, rfl, rfl, rfl, rfl, ?_, rfl⟩
  intro t ht
  have ht2 : t ∈ List.replicate maxTreeCount tree.zero := ht
  rw [List.eq_of_mem_replicate ht2]
  rfl

/-- Witness of C3: score 12 and high score 8 give high score 12 and tick
counter and score 0. -/
theorem C3_restart_after_gameover_witness :
    gameOver12.score = 12 ∧ gameOver12.hiscore = 8 ∧
      (gameOver12.Update true (fun _ => 0)).hiscore = 12 ∧
      (gameOver12.Update true (fun _ => 0)).count = 0 ∧
      (gameOver12.Update true (fun _ => 0)).score = 0 :=
  have h := C3_restart_after_gameover gameOver12 (fun _ => 0) (by decide)
  ⟨by decide, by decide, h.2.1.trans (by decide), h.2.2.1, h.2.2.2.1⟩

/-- Counterexample to C4 as stated: after 25 calls of `ground.move(6)` from
offset 0 the offset is exactly `-groundWidth`, outside the half-open interval;
the same offset is reached by 25 playing ticks from `NewGame()`. -/
theorem C4_counterexample :
    (groundAfter 25).x = -50 ∧ ¬ (-groundWidth < (groundAfter 25).x) ∧
      (run NewGame quietTrace).ground.x = -50 ∧
      ¬ (-groundWidth < (run NewGame quietTrace).ground.x) := by
  decide

/-- C4 (amended): after any number of `ground.move(speed)` calls from offset
0, and in every state reachable from `NewGame()`, the ground offset lies in
the closed interval from `-groundWidth` to 0. -/
theorem C4_ground_offset_bounds (n : Nat) (g : Game) (h : Reachable g) :
    (-groundWidth ≤ (groundAfter n).x ∧ (groundAfter n).x ≤ 0) ∧
      (-groundWidth ≤ g.ground.x ∧ g.ground.x ≤ 0) := by
  refine ⟨?_, reachable_ground h⟩
  induction n with
  | zero => decide
  | succ n ih => exact ground_move_bounds _ ih

/-- Witness of C4 (amended): 25 moves, and the state after `quietTrace`. -/
theorem C4_ground_offset_bounds_witness :
    Reachable (run NewGame quietTrace) ∧
      ((-groundWidth ≤ (groundAfter 25).x ∧ (groundAfter 25).x ≤ 0) ∧
        (-groundWidth ≤ (run NewGame quietTrace).ground.x ∧
          (run NewGame quietTrace).ground.x ≤ 0)) :=
  ⟨reachable_run Reachable.start quietTrace,
    C4_ground_offset_bounds 25 (run NewGame quietTrace)
      (reachable_run Reachable.start quietTrace)⟩

/-! ## The obstacle loop: which slot is shown -/

theorem shownAt_cons_zero (t t' : tree) (ts ts' : List tree) :
    shownAt (t :: ts) (t' :: ts') 0 = (!t.visible && t'.visible) := by
  simp [shownAt]

theorem shownAt_cons_succ (t t' : tree) (ts ts' : List tree) (i : Nat) :
    shownAt (t :: ts) (t' :: ts') (i + 1) = shownAt ts ts' i := by
  simp [shownAt]

theorem shownAt_self (ts : List tree) (i : Nat) : shownAt ts ts i = false := by
  unfold shownAt
  cases h : ts[i]? with
  | none => rfl
  | some t => cases hv : t.visible <;> simp [hv]

theorem shownAt_of_all_hidden (ts ts' : List tree) (i : Nat)
    (h : ∀ t ∈ ts', t.visible = false) : shownAt ts ts' i = false := by
  unfold shownAt
  cases h1 : ts[i]? with
  | none => rfl
  | some t =>
    cases h2 : ts'[i]? with
    | none => rfl
    | some t' =>
      have hm : t' ∈ ts' := List.getElem?_mem h2
      simp [h t' hm]

theorem hiddenBefore_zero (ts : List tree) : hiddenBefore ts 0 = 0 := by
  simp [hiddenBefore]

theorem hiddenBefore_cons_visible (t : tree) (ts : List tree) (i : Nat)
    (h : t.visible = true) : hiddenBefore (t :: ts) (i + 1) = hiddenBefore ts i := by
  simp [hiddenBefore, List.take, List.filter, h]

theorem hiddenBefore_cons_hidden (t : tree) (ts : List tree) (i : Nat)
    (h : t.visible = false) : hiddenBefore (t :: ts) (i + 1) = hiddenBefore ts i + 1 := by
  simp [hiddenBefore, List.take, List.filter, h]

theorem treeLoop_cons_visible (count : Int) (rnd : Nat → Nat) (l : Int) (k : Nat) (t : tree)
    (ts : List tree) (hv : t.visible = true) :
    treeLoop count rnd l k (t :: ts) =
      ((if (t.move speed).isOutOfScreen then (t.move speed).hide else t.move speed) ::
        (treeLoop count rnd l k ts).1, (treeLoop count rnd l k ts).2) := by
  rw [treeLoop, if_pos hv]

theorem treeLoop_cons_spawn (count : Int) (rnd : Nat → Nat) (l : Int) (k : Nat) (t : tree)
    (ts : List tree) (hv : t.visible = false)
    (hc : count - l > minTreeDist ∧ count.tmod interval = 0) (hd : rnd k % 10 = 0) :
    treeLoop count rnd l k (t :: ts) = (t.show ((rnd (k + 1) % 2 : Nat) : Int) :: ts, count) := by
  rw [treeLoop, if_neg (by simp [hv]), if_pos hc, if_pos hd]

theorem treeLoop_cons_fail (count : Int) (rnd : Nat → Nat) (l : Int) (k : Nat) (t : tree)
    (ts : List tree) (hv : t.visible = false)
    (hc : count - l > minTreeDist ∧ count.tmod interval = 0) (hd : ¬ rnd k % 10 = 0) :
    treeLoop count rnd l k (t :: ts) =
      (t :: (treeLoop count rnd l (k + 1) ts).1, (treeLoop count rnd l (k + 1) ts).2) := by
  rw [treeLoop, if_neg (by simp [hv]), if_pos hc, if_neg hd]

theorem treeLoop_cons_gate (count : Int) (rnd : Nat → Nat) (l : Int) (k : Nat) (t : tree)
    (ts : List tree) (hv : t.visible = false)
    (hc : ¬ (count - l > minTreeDist ∧ count.tmod interval = 0)) :
    treeLoop count rnd l k (t :: ts) =
      (t :: (treeLoop count rnd l k ts).1, (treeLoop count rnd l k ts).2) := by
  rw [treeLoop, if_neg (by simp [hv]), if_neg hc]

/-- When the spawn tests on the tick counter fail, no slot is shown. -/
theorem treeLoop_no_spawn (count : Int) (rnd : Nat → Nat) (l : Int)
    (hc : ¬ (count - l > minTreeDist ∧ count.tmod interval = 0)) (ts : List tree) :
    ∀ (k i : Nat), shownAt ts (treeLoop count rnd l k ts).1 i = false := by
  induction ts with
  | nil => intro k i; simp [treeLoop, shownAt]
  | cons t ts ih =>
    intro k i
    cases hv : t.visible with
    | true =>
      rw [treeLoop_cons_visible count rnd l k t ts hv]
      cases i with
      | zero => simp [shownAt_cons_zero, hv]
      | succ i => rw [shownAt_cons_succ]; exact ih k i
    | false =>
      rw [treeLoop_cons_gate count rnd l k t ts hv hc]
      cases i with
      | zero => simp [shownAt_cons_zero, hv]
      | succ i => rw [shownAt_cons_succ]; exact ih k i

/-- When the spawn tests on the tick counter hold, the slot that is shown is
the first not visible slot whose draw is 0, and it is the only one. -/
theorem treeLoop_spawn (count : Int) (rnd : Nat → Nat) (l : Int)
    (hc : count - l > minTreeDist ∧ count.tmod interval = 0) (ts : List tree) :
    ∀ (k i : Nat), shownAt ts (treeLoop count rnd l k ts).1 i = true →
      (∀ j, shownAt ts (treeLoop count rnd l k ts).1 j = true → j = i) ∧
      rnd (k + hiddenBefore ts i) % 10 = 0 ∧
      ∀ m, k ≤ m → m < k + hiddenBefore ts i → rnd m % 10 ≠ 0 := by
  induction ts with
  | nil => intro k i h; simp [treeLoop, shownAt] at h
  | cons t ts ih =>
    intro k i
    cases hv : t.visible with
    | true =>
      rw [treeLoop_cons_visible count rnd l k t ts hv]
      intro h
      cases i with
      | zero => simp [shownAt_cons_zero, hv] at h
      | succ i =>
        rw [shownAt_cons_succ] at h
        obtain ⟨h1, h2, h3⟩ := ih k i h
        rw [hiddenBefore_cons_visible t ts i hv]
        refine ⟨?_, h2, h3⟩
        intro j hj
        cases j with
        | zero => simp [shownAt_cons_zero, hv] at hj
        | succ j => rw [shownAt_cons_succ] at hj; rw [h1 j hj]
    | false =>
      by_cases hd : rnd k % 10 = 0
      · rw [treeLoop_cons_spawn count rnd l k t ts hv hc hd]
        intro h
        cases i with
        | zero =>
          rw [hiddenBefore_zero]
          refine ⟨?_, hd, fun m h1 h2 => absurd h2 (by omega)⟩
          intro j hj
          cases j with
          | zero => rfl
          | succ j => rw [shownAt_cons_succ, shownAt_self] at hj; exact absurd hj (by decide)
        | succ i => rw [shownAt_cons_succ, shownAt_self] at h; exact absurd h (by decide)
      · rw [treeLoop_cons_fail count rnd l k t ts hv hc hd]
        intro h
        cases i with
        | zero => simp [shownAt_cons_zero, hv] at h
        | succ i =>
          rw [shownAt_cons_succ] at h
          obtain ⟨h1, h2, h3⟩ := ih (k + 1) i h
          rw [hiddenBefore_cons_hidden t ts i hv]
          refine ⟨?_, ?_, ?_⟩
          · intro j hj
            cases j with
            | zero => simp [shownAt_cons_zero, hv] at hj
            | succ j => rw [shownAt_cons_succ] at hj; rw [h1 j hj]
          · rw [show k + (hiddenBefore ts i + 1) = k + 1 + hiddenBefore ts i by omega]
            exact h2
          · intro m hm1 hm2
            by_cases hmk : m = k
            · rw [hmk]; exact hd
            · exact h3 m (by omega) (by omega)

/-- Counterexample to C5 as stated: in the state after `waitTrace` no slot is
visible; in the next tick the draw for slot 0 fails and the draw for slot 1
succeeds, so slot 1 is shown although slot 0, of lower index, was not visible
at the start of the tick. -/
theorem C5_counterexample :
    (run NewGame waitTrace).trees.map tree.visible = [false, false, false] ∧
      (((run NewGame waitTrace).Update false secondDrawWins).trees.map tree.visible
        = [false, true, false]) ∧
      shownAt (run NewGame waitTrace).trees
        ((run NewGame waitTrace).Update false secondDrawWins).trees 1 = true := by
  decide

/-- C5 (amended): in every single `Update` tick, for every state and every
random stream, at most one slot changes from not visible to visible, and when
slot `i` does, it is the first slot, among those not visible at the start of
the tick, whose own 1-in-10 draw returned 0: with `n` the number of not
visible slots below `i`, draw `n` of the tick is 0 and the draws before it
are not. -/
theorem C5_one_spawn_per_tick (g : Game) (key : Bool) (rnd : Nat → Nat) (i : Nat)
    (h : shownAt g.trees (g.Update key rnd).trees i = true) :
    (∀ j, shownAt g.trees (g.Update key rnd).trees j = true → j = i) ∧
      rnd (hiddenBefore g.trees i) % 10 = 0 ∧
      ∀ m, m < hiddenBefore g.trees i → rnd m % 10 ≠ 0 := by
  rcases Update_cases g key rnd with ⟨_, e⟩ | ⟨_, e⟩ | ⟨_, e⟩ | e <;> rw [e] at h ⊢
  · have e2 : (if key = true then { g with mode := modeGame } else g).trees = g.trees := by
      split_ifs <;> rfl
    rw [e2, shownAt_self] at h
    exact absurd h (by decide)
  · rw [playing_trees] at h ⊢
    by_cases hc : g.count + 1 - g.lastTreeX > minTreeDist ∧ (g.count + 1).tmod interval = 0
    · obtain ⟨h1, h2, h3⟩ := treeLoop_spawn (g.count + 1) rnd g.lastTreeX hc g.trees 0 i h
      rw [Nat.zero_add] at h2
      exact ⟨h1, h2, fun m hm => h3 m (Nat.zero_le m) (by omega)⟩
    · rw [treeLoop_no_spawn (g.count + 1) rnd g.lastTreeX hc g.trees 0 i] at h
      exact absurd h (by decide)
  · by_cases hk : key = true
    · rw [if_pos hk] at h
      rw [shownAt_of_all_hidden] at h
      · exact absurd h (by decide)
      · intro t ht
        have ht2 : t ∈ List.replicate maxTreeCount tree.zero := ht
        rw [List.eq_of_mem_replicate ht2]
        rfl
    · rw [if_neg hk, shownAt_self] at h
      exact absurd h (by decide)
  · rw [shownAt_self] at h
    exact absurd h (by decide)

/-- Witness of C5 (amended): the tick of the counterexample, where slot 1 is
shown after the failed draw for slot 0. -/
theorem C5_one_spawn_per_tick_witness :
    shownAt (run NewGame waitTrace).trees
        ((run NewGame waitTrace).Update false secondDrawWins).trees 1 = true ∧
      hiddenBefore (run NewGame waitTrace).trees 1 = 1 ∧
      ((∀ j, shownAt (run NewGame waitTrace).trees
            ((run NewGame waitTrace).Update false secondDrawWins).trees j = true → j = 1) ∧
        secondDrawWins (hiddenBefore (run NewGame waitTrace).trees 1) % 10 = 0 ∧
        ∀ m, m < hiddenBefore (run NewGame waitTrace).trees 1 → secondDrawWins m % 10 ≠ 0) :=
  ⟨by decide, by decide,
    C5_one_spawn_per_tick (run NewGame waitTrace) false secondDrawWins 1 (by decide)⟩

/-! ## The obstacle loop: leaving the screen -/

theorem treeLoop_visible_bound (count : Int) (rnd : Nat → Nat) (l : Int) (ts : List tree)
    (hinv : ∀ t ∈ ts, t.visible = true → -50 ≤ t.x) :
    ∀ (k : Nat), ∀ t ∈ (treeLoop count rnd l k ts).1, t.visible = true → -50 ≤ t.x := by
  induction ts with
  | nil => intro k t ht; simp [treeLoop] at ht
  | cons t0 ts ih =>
    intro k t ht hv
    have hts : ∀ t ∈ ts, t.visible = true → -50 ≤ t.x :=
      fun t h => hinv t (List.mem_cons_of_mem _ h)
    cases hv0 : t0.visible with
    | true =>
      rw [treeLoop_cons_visible count rnd l k t0 ts hv0] at ht
      rcases List.mem_cons.mp ht with e | hmem
      · subst e
        by_cases ho : (t0.move speed).x < -50
        · simp [tree.isOutOfScreen, ho, tree.hide] at hv
        · simp only [tree.isOutOfScreen, ho, decide_False, Bool.false_eq_true, if_false]
          omega
      · exact ih hts k t hmem hv
    | false =>
      by_cases hc : count - l > minTreeDist ∧ count.tmod interval = 0
      · by_cases hd : rnd k % 10 = 0
        · rw [treeLoop_cons_spawn count rnd l k t0 ts hv0 hc hd] at ht
          rcases List.mem_cons.mp ht with e | hmem
          · subst e
            have hx : (t0.show ((rnd (k + 1) % 2 : Nat) : Int)).x = 640 := by
              unfold tree.show; simp only []; split_ifs <;> rfl
            rw [hx]; decide
          · exact hts t hmem hv
        · rw [treeLoop_cons_fail count rnd l k t0 ts hv0 hc hd] at ht
          rcases List.mem_cons.mp ht with e | hmem
          · subst e; rw [hv0] at hv; exact absurd hv (by decide)
          · exact ih hts (k + 1) t hmem hv
      · rw [treeLoop_cons_gate count rnd l k t0 ts hv0 hc] at ht
        rcases List.mem_cons.mp ht with e | hmem
        · subst e; rw [hv0] at hv; exact absurd hv (by decide)
        · exact ih hts k t hmem hv

/-- In every reachable state a visible obstacle has `x ≥ -50`. -/
theorem reachable_visible_bound {g : Game} (h : Reachable g) :
    ∀ t ∈ g.trees, t.visible = true → -50 ≤ t.x := by
  induction h with
  | start => decide
  | tick g key rnd _ ih =>
    have hfresh : ∀ t ∈ List.replicate maxTreeCount tree.zero, t.visible = true → -50 ≤ t.x := by
      decide
    rcases Update_cases g key rnd with ⟨_, e⟩ | ⟨_, e⟩ | ⟨_, e⟩ | e <;> rw [e]
    · split_ifs <;> exact ih
    · rw [playing_trees]
      exact treeLoop_visible_bound _ rnd _ g.trees ih 0
    · split_ifs
      · exact hfresh
      · exact ih
    · exact ih

theorem treeLoop_hidden_iff (count : Int) (rnd : Nat → Nat) (l : Int) (ts : List tree)
    (hinv : ∀ t ∈ ts, t.visible = true → -50 ≤ t.x) :
    ∀ (k i : Nat) (t t' : tree), ts[i]? = some t → t.visible = true →
      (treeLoop count rnd l k ts).1[i]? = some t' → (t'.visible = false ↔ t'.x < -50) := by
  induction ts with
  | nil => intro k i t t' h; simp at h
  | cons t0 ts ih =>
    intro k i t t' h1 hv h2
    have hts : ∀ t ∈ ts, t.visible = true → -50 ≤ t.x :=
      fun t h => hinv t (List.mem_cons_of_mem _ h)
    cases hv0 : t0.visible with
    | true =>
      rw [treeLoop_cons_visible count rnd l k t0 ts hv0] at h2
      cases i with
      | zero =>
        simp only [List.getElem?_cons_zero, Option.some.injEq] at h2
        subst h2
        by_cases ho : (t0.move speed).x < -50
        · simp [tree.isOutOfScreen, ho, tree.hide]
        · simp only [tree.isOutOfScreen, ho, decide_False, Bool.false_eq_true, if_false,
            iff_false]
          simp [tree.move, hv0]
      | succ i =>
        simp only [List.getElem?_cons_succ] at h1 h2
        exact ih hts k i t t' h1 hv h2
    | false =>
      cases i with
      | zero =>
        simp only [List.getElem?_cons_zero, Option.some.injEq] at h1
        subst h1
        rw [hv0] at hv
        exact absurd hv (by decide)
      | succ i =>
        simp only [List.getElem?_cons_succ] at h1
        by_cases hc : count - l > minTreeDist ∧ count.tmod interval = 0
        · by_cases hd : rnd k % 10 = 0
          · rw [treeLoop_cons_spawn count rnd l k t0 ts hv0 hc hd] at h2
            simp only [List.getElem?_cons_succ] at h2
            rw [h1] at h2
            simp only [Option.some.injEq] at h2
            subst h2
            have hb := hts t (List.getElem?_mem h1) hv
            constructor
            · intro hf; rw [hv] at hf; exact absurd hf (by decide)
            · intro hx; omega
          · rw [treeLoop_cons_fail count rnd l k t0 ts hv0 hc hd] at h2
            simp only [List.getElem?_cons_succ] at h2
            exact ih hts (k + 1) i t t' h1 hv h2
        · rw [treeLoop_cons_gate count rnd l k t0 ts hv0 hc] at h2
          simp only [List.getElem?_cons_succ] at h2
          exact ih hts k i t t' h1 hv h2

/-- C6 (evaluation at the failing input): the state after `stallTrace` is
reachable and in Playing mode, slot 0 is not visible and slot 1 is visible at
`x = 286`; in the next tick slot 0 is shown, the loop is left, and slot 1 is
still at `x = 286` after the tick instead of `280`. -/
theorem C6_obstacle_after_spawn_not_moved :
    Reachable (run NewGame stallTrace) ∧ (run NewGame stallTrace).mode = modeGame ∧
      (run NewGame stallTrace).count = 179 ∧
      (run NewGame stallTrace).trees.map tree.visible = [false, true, false] ∧
      (run NewGame stallTrace).trees.map tree.x = [-56, 286, 0] ∧
      (((run NewGame stallTrace).Update false (fun _ => 0)).trees.map tree.visible
        = [true, true, false]) ∧
      ((run NewGame stallTrace).Update false (fun _ => 0)).trees.map tree.x = [640, 286, 0] :=
  ⟨reachable_run Reachable.start stallTrace, by decide, by decide, by decide, by decide,
    by decide, by decide⟩

/-- C7: for every state reachable from `NewGame()` and every `Update` tick in
Playing mode, an obstacle that is visible before the tick is not visible after
the tick if and only if its `x` after the tick is below `-50`. -/
theorem C7_hidden_iff_past_threshold (g : Game) (key : Bool) (rnd : Nat → Nat) (i : Nat)
    (t t' : tree) (hr : Reachable g) (hm : g.mode = modeGame) (h1 : g.trees[i]? = some t)
    (hv : t.visible = true) (h2 : (g.Update key rnd).trees[i]? = some t') :
    t'.visible = false ↔ t'.x < -50 := by
  rw [Update_game g key rnd hm, playing_trees] at h2
  exact treeLoop_hidden_iff _ rnd _ g.trees (reachable_visible_bound hr) 0 i t t' h1 hv h2

/-- Witness of C7: after `twoTreesTrace` slot 0 is visible at `x = -50`; the next
tick moves it to `-56` and hides it. -/
theorem C7_hidden_iff_past_threshold_witness :
    Reachable (run NewGame twoTreesTrace) ∧ (run NewGame twoTreesTrace).mode = modeGame ∧
      (run NewGame twoTreesTrace).trees[0]?
        = some { x := -50, y := 350, kind := 0, visible := true } ∧
      ((run NewGame twoTreesTrace).Update false (fun _ => 1)).trees[0]?
        = some { x := -56, y := 350, kind := 0, visible := false } ∧
      ((({ x := -56, y := 350, kind := 0, visible := false } : tree)).visible = false ↔
        (({ x := -56, y := 350, kind := 0, visible := false } : tree)).x < -50) :=
  ⟨reachable_run Reachable.start twoTreesTrace, by decide, by decide, by decide,
    C7_hidden_iff_past_threshold (run NewGame twoTreesTrace) false (fun _ => 1) 0
      { x := -50, y := 350, kind := 0, visible := true }
      { x := -56, y := 350, kind := 0, visible := false }
      (reachable_run Reachable.start twoTreesTrace) (by decide) (by decide) rfl (by decide)⟩

/-- C8 (evaluation at the failing input): the state after `airCrashTrace` is
reachable; the player crashed in the air with the jump flag set, and the restart
put the player at the resting level 350 without clearing the flag. -/
theorem C8_jump_flag_survives_restart :
    Reachable (run NewGame airCrashTrace) ∧ (run NewGame airCrashTrace).mode = modeGame ∧
      (run NewGame airCrashTrace).dinosaurY = 350 ∧
      (run NewGame airCrashTrace).dinosaurY ≥ groundY - dinosaurHeight ∧
      (run NewGame airCrashTrace).jumpFlg = true :=
  ⟨reachable_run Reachable.start airCrashTrace, by decide, by decide, by decide, by decide⟩

/-! ## Collision test -/

theorem hitLoop_iff (a b c : Int) (ts : List tree) :
    hitLoop a b c ts = true ↔
      ∃ t ∈ ts, t.visible = true ∧ b - (t.x + 5) > 0 ∧ t.x + treeSmallWidth - 5 - a > 0 ∧
        c - (t.y + 5) > 0 := by
  induction ts with
  | nil => simp [hitLoop]
  | cons t ts ih =>
    unfold hitLoop
    simp only [List.mem_cons, exists_eq_or_imp]
    rw [← ih]
    by_cases h : t.visible = true ∧ b - (t.x + 5) > 0 ∧ t.x + treeSmallWidth - 5 - a > 0 ∧
        c - (t.y + 5) > 0
    · simp [h]
    · have h' : ¬ ((t.visible &&
          (decide (b - (t.x + 5) > 0) &&
            (decide (t.x + treeSmallWidth - 5 - a > 0) &&
              decide (c - (t.y + 5) > 0)))) = true) := by
        simpa [Bool.and_eq_true, decide_eq_true_eq] using h
      rw [if_neg h']
      simp only [h, false_or]

/-- C9: for every game state `hit()` returns true if and only if some visible
obstacle `t` of the pool satisfies `dinosaurX + 100 - 15 > t.x + 5`,
`t.x + 25 - 5 > dinosaurX + 20` and `dinosaurY + 50 - 10 > t.y + 5` (slots
that are not visible never contribute); and with the player at rest at
(100, 350) and a single visible small obstacle at `x = 30`, `y = 350`, `hit()`
is false. -/
theorem C9_hit_iff_visible_overlap (g : Game) :
    (g.hit = true ↔
      ∃ t ∈ g.trees, t.visible = true ∧ g.dinosaurX + 100 - 15 > t.x + 5 ∧
        t.x + 25 - 5 > g.dinosaurX + 20 ∧ g.dinosaurY + 50 - 10 > t.y + 5) ∧
      restWithTreeAt30.hit = false := by
  refine ⟨?_, by decide⟩
  unfold Game.hit
  simp only [hitLoop_iff, dinosaurWidth, dinosaurHeight, treeSmallWidth]
  constructor
  · rintro ⟨t, ht, hv, h1, h2, h3⟩
    exact ⟨t, ht, hv, by omega, by omega, by omega⟩
  · rintro ⟨t, ht, hv, h1, h2, h3⟩
    exact ⟨t, ht, hv, by omega, by omega, by omega⟩

/-- C10: `hit()` does not depend on the order of the pool: for every game
state and every permutation `ts` of its obstacle slots, `hit()` on the state
with pool `ts` returns the same Boolean as on the original state. -/
theorem C10_hit_order_independent (g : Game) (ts : List tree) (h : List.Perm g.trees ts) :
    ({ g with trees := ts } : Game).hit = g.hit := by
  have key : ({ g with trees := ts } : Game).hit = true ↔ g.hit = true := by
    unfold Game.hit
    simp only [hitLoop_iff]
    constructor
    · rintro ⟨t, ht, hrest⟩
      exact ⟨t, h.mem_iff.mpr ht, hrest⟩
    · rintro ⟨t, ht, hrest⟩
      exact ⟨t, h.mem_iff.mp ht, hrest⟩
  cases h1 : ({ g with trees := ts } : Game).hit <;> cases h2 : g.hit <;> simp_all

/-- Witness of C10: the colliding obstacle moved from the last slot to the
first one; `hit()` is true in both orders. -/
theorem C10_hit_order_independent_witness :
    restWithTreeAt130.hit = true ∧
      ({ restWithTreeAt130 with
          trees := [{ x := 130, y := 350, kind := kindTreeSmall, visible := true }, tree.zero,
            { x := 700, y := 325, kind := kindTreeBig, visible := true }] } : Game).hit
        = restWithTreeAt130.hit :=
  ⟨by decide,
    C10_hit_order_independent restWithTreeAt130
      [{ x := 130, y := 350, kind := kindTreeSmall, visible := true }, tree.zero,
        { x := 700, y := 325, kind := kindTreeBig, visible := true }] (by decide)⟩

/-! ## The blocks of a playing tick -/

theorem playing_eq_hitStep (g : Game) (key : Bool) (rnd : Nat → Nat) :
    g.playing key rnd = (g.beforeHit key rnd).hitStep := rfl

theorem beforeHit_mode (g : Game) (key : Bool) (rnd : Nat → Nat) :
    (g.beforeHit key rnd).mode = g.mode := by
  simp [Game.beforeHit, Game.groundStep, Game.treeStep, Game.countStep]

theorem beforeHit_trees (g : Game) (key : Bool) (rnd : Nat → Nat) :
    (g.beforeHit key rnd).trees = (treeLoop (g.count + 1) rnd g.lastTreeX 0 g.trees).1 := by
  simp [Game.beforeHit, Game.groundStep, Game.treeStep, Game.countStep]

theorem hitStep_mode (g : Game) :
    g.hitStep.mode = if g.hit then modeGameover else g.mode := by
  unfold Game.hitStep; split_ifs <;> rfl

theorem jumpStep_rule (g : Game) (key : Bool) :
    ((g.jumpStep key).dinosaurY, (g.jumpStep key).gy, (g.jumpStep key).jumpFlg) =
      jumpRule g.dinosaurY g.gy g.jumpFlg key := by
  unfold Game.jumpStep jumpRule
  cases hf : g.jumpFlg <;> cases key <;>
    simp [hf, groundY, dinosaurHeight, jumpingPower, gravity] <;> split_ifs <;> simp_all

theorem beforeHit_jump (g : Game) (key : Bool) (rnd : Nat → Nat) :
    (g.beforeHit key rnd).dinosaurY = (g.jumpStep key).dinosaurY ∧
      (g.beforeHit key rnd).gy = (g.jumpStep key).gy ∧
      (g.beforeHit key rnd).jumpFlg = (g.jumpStep key).jumpFlg := by
  have h := jumpStep_rule g key
  have h2 := jumpStep_rule g.countStep key
  have e : jumpRule g.countStep.dinosaurY g.countStep.gy g.countStep.jumpFlg key =
      jumpRule g.dinosaurY g.gy g.jumpFlg key := rfl
  rw [e, ← h] at h2
  simp only [Prod.mk.injEq] at h2
  exact h2

theorem playing_jump (g : Game) (key : Bool) (rnd : Nat → Nat) :
    ((g.playing key rnd).dinosaurY, (g.playing key rnd).gy, (g.playing key rnd).jumpFlg) =
      jumpRule g.dinosaurY g.gy g.jumpFlg key := by
  obtain ⟨h1, h2, h3⟩ := beforeHit_jump g key rnd
  rw [playing_eq_hitStep, hitStep_dinosaurY, hitStep_gy, hitStep_jumpFlg, h1, h2, h3]
  exact jumpStep_rule g key

theorem jumpStep_key_irrelevant (g : Game) (h : g.jumpFlg = true) :
    g.jumpStep true = g.jumpStep false := by
  unfold Game.jumpStep
  simp [h]

/-- With no visible obstacle `hit` is false. -/
theorem hit_of_all_hidden (g : Game) (h : ∀ t ∈ g.trees, t.visible = false) :
    g.hit = false := by
  cases hh : g.hit with
  | false => rfl
  | true =>
    unfold Game.hit at hh
    obtain ⟨t, ht, hv, _⟩ := (hitLoop_iff _ _ _ _).mp hh
    rw [h t ht] at hv
    exact absurd hv (by decide)

/-- With no visible obstacle and only failing draws the loop changes nothing. -/
theorem treeLoop_quiet (count : Int) (rnd : Nat → Nat) (l : Int) (ts : List tree)
    (h : ∀ t ∈ ts, t.visible = false) (hr : ∀ k, rnd k % 10 ≠ 0) :
    ∀ k, treeLoop count rnd l k ts = (ts, l) := by
  induction ts with
  | nil => intro k; simp [treeLoop]
  | cons t ts ih =>
    intro k
    have hv : t.visible = false := h t (List.mem_cons_self _ _)
    have hts : ∀ t ∈ ts, t.visible = false := fun t ht => h t (List.mem_cons_of_mem _ ht)
    by_cases hc : count - l > minTreeDist ∧ count.tmod interval = 0
    · rw [treeLoop_cons_fail count rnd l k t ts hv hc (hr k), ih hts]
    · rw [treeLoop_cons_gate count rnd l k t ts hv hc, ih hts]

/-- A playing tick at rest, without key, without visible obstacle and without
successful draw. -/
theorem quiet_tick (g : Game) (rnd : Nat → Nat) (hm : g.mode = modeGame)
    (hf : g.jumpFlg = false) (hy : g.dinosaurY = 350)
    (ht : ∀ t ∈ g.trees, t.visible = false) (hr : ∀ k, rnd k % 10 ≠ 0) :
    (g.Update false rnd).mode = modeGame ∧ (g.Update false rnd).jumpFlg = false ∧
      (g.Update false rnd).dinosaurY = 350 ∧ (g.Update false rnd).trees = g.trees ∧
      (g.Update false rnd).count = g.count + 1 ∧
      (g.Update false rnd).score = (g.count + 1).tdiv 5 := by
  rw [Update_game g false rnd hm]
  have hj := playing_jump g false rnd
  rw [hf, hy] at hj
  simp only [jumpRule, Prod.mk.injEq] at hj
  have htr : (g.beforeHit false rnd).trees = g.trees := by
    rw [beforeHit_trees, treeLoop_quiet _ rnd _ g.trees ht hr 0]
  have hh : (g.beforeHit false rnd).hit = false :=
    hit_of_all_hidden _ (by rw [htr]; exact ht)
  refine ⟨?_, ?_, ?_, ?_, playing_count g false rnd, playing_score g false rnd⟩
  · rw [playing_eq_hitStep, hitStep_mode, hh, beforeHit_mode, hm]; rfl
  · rw [hj.2.2]; simp
  · rw [hj.1]; simp
  · rw [playing_eq_hitStep, hitStep_trees, htr]

theorem quiet_run (rs : List (Nat → Nat)) (hr : ∀ r ∈ rs, ∀ k, r k % 10 ≠ 0) :
    ∀ g : Game, g.mode = modeGame → g.jumpFlg = false → g.dinosaurY = 350 →
      (∀ t ∈ g.trees, t.visible = false) → g.score = g.count.tdiv 5 →
      (run g (noKeyTicks rs)).mode = modeGame ∧ (run g (noKeyTicks rs)).dinosaurY = 350 ∧
        (run g (noKeyTicks rs)).trees = g.trees ∧
        (run g (noKeyTicks rs)).count = g.count + rs.length ∧
        (run g (noKeyTicks rs)).score = (g.count + rs.length).tdiv 5 := by
  induction rs with
  | nil =>
    intro g hm _ hy _ hs
    simp [noKeyTicks, run, hm, hy, hs]
  | cons r rs ih =>
    intro g hm hf hy ht _
    obtain ⟨h1, h2, h3, h4, h5, h6⟩ :=
      quiet_tick g r hm hf hy ht (hr r (List.mem_cons_self _ _))
    have hi := ih (fun r' h' => hr r' (List.mem_cons_of_mem _ h')) (g.Update false r)
      h1 h2 h3 (by rw [h4]; exact ht) (by rw [h6, h5])
    simp only [noKeyTicks, List.map_cons, run] at hi ⊢
    rw [h4, h5] at hi
    refine ⟨hi.1, hi.2.1, hi.2.2.1, ?_, ?_⟩
    · rw [hi.2.2.2.1, List.length_cons]; push_cast; ring
    · rw [hi.2.2.2.2, List.length_cons]; congr 1; push_cast; ring

theorem mode_after_tick (g : Game) (key : Bool) (rnd : Nat → Nat) :
    (g.Update key rnd).mode =
      (if g.mode = modeTitle then (if key then modeGame else modeTitle)
        else if g.mode = modeGame then
          (if (g.beforeHit key rnd).hit then modeGameover else modeGame)
        else if g.mode = modeGameover then (if key then modeGame else modeGameover)
        else g.mode) := by
  by_cases h0 : g.mode = modeTitle
  · rw [Update_title g key rnd h0, if_pos h0]
    cases key
    · simpa using h0
    · simp
  by_cases h1 : g.mode = modeGame
  · rw [Update_game g key rnd h1, if_neg h0, if_pos h1, playing_eq_hitStep, hitStep_mode,
      beforeHit_mode, h1]
  by_cases h2 : g.mode = modeGameover
  · rw [Update_gameover g key rnd h2, if_neg h0, if_neg h1, if_pos h2]
    cases key
    · simpa using h2
    · simp
  · rw [Update_other g key rnd h0 h1 h2, if_neg h0, if_neg h1, if_neg h2]

theorem mode_never_title_again (is : List Tick) :
    ∀ g : Game, g.mode ≠ modeTitle → (run g is).mode ≠ modeTitle := by
  induction is with
  | nil => intro g h; exact h
  | cons i is ih =>
    intro g h
    apply ih
    rw [mode_after_tick, if_neg h]
    split_ifs <;> first | decide | exact h

theorem hitLoopKindWidth_eq (a b c : Int) (ts : List tree) :
    hitLoopKindWidth a b c ts = hitLoop a b c ts := by
  induction ts with
  | nil => rfl
  | cons t ts ih =>
    have hw : treeWidth t.kind = treeSmallWidth := by
      unfold treeWidth; split_ifs <;> rfl
    unfold hitLoopKindWidth hitLoop
    rw [ih, hw]

/-! ## The claims, continued -/

/-- C11: no gameplay update happens outside Playing: for every state in Title
or GameOver mode a tick without the key leaves the whole state unchanged; in
Title mode a tick with the key changes only the mode, to Playing; and from
`NewGame()` such a tick gives mode Playing with tick counter 0 and score 0. -/
theorem C11_no_update_outside_playing (g : Game) (rnd : Nat → Nat)
    (h : g.mode = modeTitle ∨ g.mode = modeGameover) :
    g.Update false rnd = g ∧
      (g.mode = modeTitle → g.Update true rnd = { g with mode := modeGame }) ∧
      (NewGame.Update true rnd).mode = modeGame ∧ (NewGame.Update true rnd).count = 0 ∧
      (NewGame.Update true rnd).score = 0 := by
  have hn : NewGame.Update true rnd = { NewGame with mode := modeGame } := by
    rw [Update_title NewGame true rnd (by decide), if_pos rfl]
  refine ⟨?_, ?_, ?_, ?_, ?_⟩
  · rcases h with h | h
    · rw [Update_title g false rnd h]; rfl
    · rw [Update_gameover g false rnd h]; rfl
  · intro ht
    rw [Update_title g true rnd ht, if_pos rfl]
  · rw [hn]
  · rw [hn]; rfl
  · rw [hn]; rfl

/-- Witness of C11: the GameOver state after `crashTrace` is left unchanged by
a tick without the key. -/
theorem C11_no_update_outside_playing_witness :
    (run NewGame crashTrace).mode = modeGameover ∧
      (run NewGame crashTrace).Update false (fun _ => 0) = run NewGame crashTrace :=
  ⟨by decide,
    (C11_no_update_outside_playing (run NewGame crashTrace) (fun _ => 0)
      (Or.inr (by decide))).1⟩

/-- C12: the mode follows the three-state machine: `NewGame()` starts in Title;
after a tick the mode is Playing or Title from Title according to the key,
GameOver or Playing from Playing according to `hit()` on the state after the
movement and spawn updates of the tick, Playing or GameOver from GameOver
according to the key; and once the mode is not Title it is never Title again,
whatever ticks follow. -/
theorem C12_mode_machine (g : Game) (key : Bool) (rnd : Nat → Nat) (is : List Tick) :
    NewGame.mode = modeTitle ∧
      (g.Update key rnd).mode =
        (if g.mode = modeTitle then (if key then modeGame else modeTitle)
          else if g.mode = modeGame then
            (if (g.beforeHit key rnd).hit then modeGameover else modeGame)
          else if g.mode = modeGameover then (if key then modeGame else modeGameover)
          else g.mode) ∧
      (g.mode ≠ modeTitle → (run g is).mode ≠ modeTitle) :=
  ⟨by decide, mode_after_tick g key rnd, mode_never_title_again is g⟩

/-- Witness of C12: from the Playing state after `waitTrace` the mode after the
77 remaining ticks of the crash is GameOver, not Title. -/
theorem C12_mode_machine_witness :
    (run NewGame waitTrace).mode ≠ modeTitle ∧
      (run (run NewGame waitTrace) (spawnTick :: List.replicate 77 quietTick)).mode
        = modeGameover ∧
      (run (run NewGame waitTrace) (spawnTick :: List.replicate 77 quietTick)).mode
        ≠ modeTitle :=
  ⟨by decide, by decide,
    (C12_mode_machine (run NewGame waitTrace) false (fun _ => 0)
      (spawnTick :: List.replicate 77 quietTick)).2.2 (by decide)⟩

/-- C13: starting from a fresh session (`NewGame()` and the key press that
leaves the title screen), after `n` playing ticks without key and without
successful spawn draw the tick counter is `n`, the score is `n / 5`, the
player is still at height 350, no obstacle is visible and the mode is Playing. -/
theorem C13_quiet_session (r0 : Nat → Nat) (rs : List (Nat → Nat))
    (h : ∀ r ∈ rs, ∀ k, r k % 10 ≠ 0) :
    (run (NewGame.Update true r0) (noKeyTicks rs)).count = rs.length ∧
      (run (NewGame.Update true r0) (noKeyTicks rs)).score = (rs.length : Int) / 5 ∧
      (run (NewGame.Update true r0) (noKeyTicks rs)).dinosaurY = 350 ∧
      (∀ t ∈ (run (NewGame.Update true r0) (noKeyTicks rs)).trees, t.visible = false) ∧
      (run (NewGame.Update true r0) (noKeyTicks rs)).mode = modeGame := by
  have hn : NewGame.Update true r0 = { NewGame with mode := modeGame } := by
    rw [Update_title NewGame true r0 (by decide), if_pos rfl]
  rw [hn]
  obtain ⟨h1, h2, h3, h4, h5⟩ := quiet_run rs h { NewGame with mode := modeGame } rfl rfl rfl
    (by decide) (by decide)
  have hc : ({ NewGame with mode := modeGame } : Game).count = 0 := rfl
  rw [hc, zero_add] at h4 h5
  refine ⟨h4, ?_, h2, ?_, h1⟩
  · rw [h5, Int.tdiv_eq_ediv (Int.natCast_nonneg _) (by decide)]
  · rw [h3]; decide

/-- Witness of C13: 25 quiet ticks give score 5. -/
theorem C13_quiet_session_witness :
    (run (NewGame.Update true (fun _ => 1))
        (noKeyTicks (List.replicate 25 (fun _ => 1)))).count = 25 ∧
      (run (NewGame.Update true (fun _ => 1))
        (noKeyTicks (List.replicate 25 (fun _ => 1)))).score = 5 :=
  have h := C13_quiet_session (fun _ => 1) (List.replicate 25 (fun _ => 1))
    (fun r hr k => by
      rw [List.eq_of_mem_replicate hr]; exact (by decide : (1 : Nat) % 10 ≠ 0))
  ⟨h.1, h.2.1⟩

/-- C14: in a playing tick the vertical position, the velocity and the jump
flag after the tick are those given by the reference rule `jumpRule`, for
every state; and when the jump flag is already set, the tick with the key
yields exactly the same state as the tick without it. -/
theorem C14_jump_step_is_rule (g : Game) (key : Bool) (rnd : Nat → Nat)
    (h : g.mode = modeGame) :
    ((g.Update key rnd).dinosaurY, (g.Update key rnd).gy, (g.Update key rnd).jumpFlg) =
        jumpRule g.dinosaurY g.gy g.jumpFlg key ∧
      (g.jumpFlg = true → g.Update true rnd = g.Update false rnd) := by
  refine ⟨?_, ?_⟩
  · rw [Update_game g key rnd h]; exact playing_jump g key rnd
  · intro hf
    rw [Update_game g true rnd h, Update_game g false rnd h]
    unfold Game.playing
    have hc : g.countStep.jumpFlg = true := hf
    rw [jumpStep_key_irrelevant g.countStep hc]

/-- Witness of C14: in the air with velocity `-9` at height 245, the tick with
the key gives height 236, velocity `-8`, flag still set, as without the key. -/
theorem C14_jump_step_is_rule_witness :
    jumpRule inTheAir.dinosaurY inTheAir.gy inTheAir.jumpFlg true = (236, -8, true) ∧
      (((inTheAir.Update true (fun _ => 1)).dinosaurY, (inTheAir.Update true (fun _ => 1)).gy,
          (inTheAir.Update true (fun _ => 1)).jumpFlg) =
        jumpRule inTheAir.dinosaurY inTheAir.gy inTheAir.jumpFlg true ∧
      (inTheAir.jumpFlg = true →
        inTheAir.Update true (fun _ => 1) = inTheAir.Update false (fun _ => 1))) :=
  ⟨by decide, C14_jump_step_is_rule inTheAir true (fun _ => 1) (by decide)⟩

/-- C19: using the small-obstacle width for every obstacle is invisible: for
every game state `hit()` returns the same Boolean as the variant that uses the
width of the obstacle's own kind for the right bound of its hitbox. -/
theorem C19_hit_width_invisible (g : Game) : g.hit = g.hitKindWidth := by
  unfold Game.hit Game.hitKindWidth
  rw [hitLoopKindWidth_eq]

/-! ## The obstacle loop: the slot that is shown -/

theorem show_props (t : tree) (r : Int) :
    (t.show r).x = 640 ∧ (t.show r).kind = r ∧ (t.show r).visible = true ∧
      (r = kindTreeSmall → (t.show r).y = 350) ∧ (r = kindTreeBig → (t.show r).y = 325) := by
  unfold tree.show
  simp only [kindTreeSmall, kindTreeBig, screenX, groundY, treeSmallHeghit, treeBigHeghit]
  refine ⟨?_, ?_, ?_, ?_, ?_⟩
  · split_ifs <;> rfl
  · split_ifs <;> rfl
  · trivial
  · intro h; rw [if_pos h]; rfl
  · intro h; rw [if_neg (by omega), if_pos h]; rfl

/-- When a slot is shown, the loop returns the tick counter as the new
`lastTreeX` and the slot holds the result of `show` for the draw that follows
the successful one. -/
theorem treeLoop_shown (count : Int) (rnd : Nat → Nat) (l : Int)
    (hc : count - l > minTreeDist ∧ count.tmod interval = 0) (ts : List tree) :
    ∀ (k i : Nat), shownAt ts (treeLoop count rnd l k ts).1 i = true →
      (treeLoop count rnd l k ts).2 = count ∧
      ∃ t, ts[i]? = some t ∧
        (treeLoop count rnd l k ts).1[i]? =
          some (t.show ((rnd (k + hiddenBefore ts i + 1) % 2 : Nat) : Int)) := by
  induction ts with
  | nil => intro k i h; simp [treeLoop, shownAt] at h
  | cons t ts ih =>
    intro k i
    cases hv : t.visible with
    | true =>
      rw [treeLoop_cons_visible count rnd l k t ts hv]
      intro h
      cases i with
      | zero => simp [shownAt_cons_zero, hv] at h
      | succ i =>
        rw [shownAt_cons_succ] at h
        obtain ⟨h1, t0, h2, h3⟩ := ih k i h
        rw [hiddenBefore_cons_visible t ts i hv]
        exact ⟨h1, t0, by simpa using h2, by simpa using h3⟩
    | false =>
      by_cases hd : rnd k % 10 = 0
      · rw [treeLoop_cons_spawn count rnd l k t ts hv hc hd]
        intro h
        cases i with
        | zero =>
          rw [hiddenBefore_zero]
          exact ⟨rfl, t, by simp, by simp⟩
        | succ i => rw [shownAt_cons_succ, shownAt_self] at h; exact absurd h (by decide)
      · rw [treeLoop_cons_fail count rnd l k t ts hv hc hd]
        intro h
        cases i with
        | zero => simp [shownAt_cons_zero, hv] at h
        | succ i =>
          rw [shownAt_cons_succ] at h
          obtain ⟨h1, t0, h2, h3⟩ := ih (k + 1) i h
          rw [hiddenBefore_cons_hidden t ts i hv]
          rw [show k + 1 + hiddenBefore ts i + 1 = k + (hiddenBefore ts i + 1) + 1 by omega] at h3
          exact ⟨h1, t0, by simpa using h2, by simpa using h3⟩

/-- C15: for every state and every playing tick, a slot changes from not
visible to visible only if, with `count` the incremented tick counter and
`lastTreeX` its value before the tick, `count - lastTreeX > 50`,
`count % 10 == 0` and the 1-in-10 draw made for that slot returned 0; and then,
after the tick, `lastTreeX == count`, the slot has `x == 640`, its kind is the
value of the next draw `rand.Intn(2)`, which is Small or Big, and its `y` is 350
for Small and 325 for Big. -/
theorem C15_spawn_conditions (g : Game) (key : Bool) (rnd : Nat → Nat) (i : Nat)
    (hm : g.mode = modeGame) (h : shownAt g.trees (g.Update key rnd).trees i = true) :
    g.count + 1 - g.lastTreeX > 50 ∧ (g.count + 1).tmod 10 = 0 ∧
      rnd (hiddenBefore g.trees i) % 10 = 0 ∧
      (g.Update key rnd).count = g.count + 1 ∧
      (g.Update key rnd).lastTreeX = g.count + 1 ∧
      ∃ t, (g.Update key rnd).trees[i]? = some t ∧ t.x = 640 ∧
        t.kind = ((rnd (hiddenBefore g.trees i + 1) % 2 : Nat) : Int) ∧
        (t.kind = kindTreeSmall ∨ t.kind = kindTreeBig) ∧
        (t.kind = kindTreeSmall → t.y = 350) ∧ (t.kind = kindTreeBig → t.y = 325) := by
  rw [Update_game g key rnd hm] at h ⊢
  rw [playing_trees] at h
  rw [playing_count, playing_lastTreeX, playing_trees]
  by_cases hc : g.count + 1 - g.lastTreeX > minTreeDist ∧ (g.count + 1).tmod interval = 0
  · obtain ⟨_, h2, _⟩ := treeLoop_spawn (g.count + 1) rnd g.lastTreeX hc g.trees 0 i h
    obtain ⟨h4, t0, _, h6⟩ := treeLoop_shown (g.count + 1) rnd g.lastTreeX hc g.trees 0 i h
    rw [Nat.zero_add] at h2 h6
    obtain ⟨p1, p2, _, p4, p5⟩ :=
      show_props t0 ((rnd (hiddenBefore g.trees i + 1) % 2 : Nat) : Int)
    refine ⟨hc.1, hc.2, h2, rfl, h4, _, h6, p1, p2, ?_, ?_, ?_⟩
    · rw [p2]
      simp only [kindTreeSmall, kindTreeBig]
      omega
    · intro hk; rw [p2] at hk; exact p4 hk
    · intro hk; rw [p2] at hk; exact p5 hk
  · rw [treeLoop_no_spawn (g.count + 1) rnd g.lastTreeX hc g.trees 0 i] at h
    exact absurd h (by decide)

/-- Witness of C15: at tick 60 of a fresh session slot 0 is shown as a small
obstacle at `x = 640`, `y = 350`, and `lastTreeX` becomes 60. -/
theorem C15_spawn_conditions_witness :
    ((run NewGame waitTrace).Update false (fun _ => 0)).trees[0]?
        = some { x := 640, y := 350, kind := 0, visible := true } ∧
      ((run NewGame waitTrace).count + 1 - (run NewGame waitTrace).lastTreeX > 50 ∧
        ((run NewGame waitTrace).count + 1).tmod 10 = 0 ∧
        (fun _ : Nat => 0) (hiddenBefore (run NewGame waitTrace).trees 0) % 10 = 0 ∧
        ((run NewGame waitTrace).Update false (fun _ => 0)).count
          = (run NewGame waitTrace).count + 1 ∧
        ((run NewGame waitTrace).Update false (fun _ => 0)).lastTreeX
          = (run NewGame waitTrace).count + 1 ∧
        ∃ t, ((run NewGame waitTrace).Update false (fun _ => 0)).trees[0]? = some t ∧
          t.x = 640 ∧
          t.kind = (((fun _ : Nat => 0) (hiddenBefore (run NewGame waitTrace).trees 0 + 1) % 2
            : Nat) : Int) ∧
          (t.kind = kindTreeSmall ∨ t.kind = kindTreeBig) ∧
          (t.kind = kindTreeSmall → t.y = 350) ∧ (t.kind = kindTreeBig → t.y = 325)) :=
  ⟨by decide,
    C15_spawn_conditions (run NewGame waitTrace) false (fun _ => 0) 0 (by decide) (by decide)⟩

/-! ## The jump arc -/

theorem jumpRule_inv (y gy : Int) (flag key : Bool) (h : jumpInv y gy flag) :
    jumpInv (jumpRule y gy flag key).1 (jumpRule y gy flag key).2.1
      (jumpRule y gy flag key).2.2 := by
  rcases h with ⟨hf, hy⟩ | ⟨hf, j, h1, h2, h3, h4⟩ | ⟨hf, hy, hg⟩
  · subst hf hy
    cases key
    · left; simp [jumpRule]
    · right; left
      refine ⟨by simp [jumpRule], 1, le_refl _, by decide, ?_, ?_⟩ <;> simp [jumpRule]
  · subst hf
    have e : jumpRule y gy true key =
        (y + gy, gy + 1, if y + gy ≥ 350 then false else true) := by
      cases key <;> simp [jumpRule]
    rw [e]
    by_cases hj : j = 30
    · subst hj
      have hy : y = 335 := by push_cast at h4; omega
      have hg : gy = 15 := by push_cast at h3; omega
      subst hy hg
      left; simp
    · have hpos : 0 < ((j : Int) + 1) * (30 - (j : Int)) :=
        mul_pos (by omega) (by omega)
      have hsum : 2 * (y + gy) = 700 - ((j : Int) + 1) * (30 - (j : Int)) := by
        linear_combination h4 + 2 * h3
      have hlt : ¬ (y + gy ≥ 350) := by
        intro hge
        linarith
      right; left
      refine ⟨by simp [hlt], j + 1, by omega, by omega, ?_, ?_⟩
      · show gy + 1 = ((j + 1 : Nat) : Int) - 15
        push_cast; omega
      · show 2 * (y + gy) = 700 - ((j + 1 : Nat) : Int) * (31 - ((j + 1 : Nat) : Int))
        push_cast
        linear_combination hsum
  · subst hf hy hg
    left
    cases key <;> simp [jumpRule]

theorem jumpInv_bounds (y gy : Int) (flag : Bool) (h : jumpInv y gy flag) :
    230 ≤ y ∧ y ≤ 350 := by
  rcases h with ⟨_, hy⟩ | ⟨_, j, h1, h2, _, h4⟩ | ⟨_, hy, _⟩
  · omega
  · interval_cases j <;> push_cast at h4 <;> omega
  · omega

theorem init_jump_fields (g : Game) :
    g.init.dinosaurY = 350 ∧ g.init.gy = 0 ∧ g.init.jumpFlg = g.jumpFlg := by
  refine ⟨?_, ?_, ?_⟩ <;> unfold Game.init <;> simp only [] <;>
    first
      | rfl
      | (split_ifs <;> rfl)

theorem reachable_jumpInv {g : Game} (h : Reachable g) :
    jumpInv g.dinosaurY g.gy g.jumpFlg := by
  induction h with
  | start => left; decide
  | tick g key rnd _ ih =>
    rcases Update_cases g key rnd with ⟨_, e⟩ | ⟨_, e⟩ | ⟨_, e⟩ | e <;> rw [e]
    · split_ifs <;> exact ih
    · have hj := playing_jump g key rnd
      have hi := jumpRule_inv g.dinosaurY g.gy g.jumpFlg key ih
      rw [← hj] at hi
      exact hi
    · split_ifs
      · obtain ⟨h1, h2, h3⟩ := init_jump_fields g
        show jumpInv g.init.dinosaurY g.init.gy g.init.jumpFlg
        rw [h1, h2, h3]
        cases hf : g.jumpFlg
        · left; exact ⟨rfl, rfl⟩
        · right; right; exact ⟨rfl, rfl, rfl⟩
      · exact ih
    · exact ih

/-- C16: in every state reachable from `NewGame()` the height of the player
satisfies `230 ≤ dinosaurY ≤ 350`; the bound 230, 120 above the resting level,
is reached at tick 15 of a jump; and a jump from rest that runs without
interruption is in the air, above the resting level with the flag set, for the
ticks 1 to 30 and lands exactly on 350, with the flag cleared, on tick 31. -/
theorem C16_height_bounds (g : Game) (h : Reachable g) :
    (230 ≤ g.dinosaurY ∧ g.dinosaurY ≤ 350) ∧
      (run NewGame (jumpTicks 15)).dinosaurY = 230 ∧
      (∀ n, 1 ≤ n → n ≤ 30 →
        (run NewGame (jumpTicks n)).jumpFlg = true ∧
          (run NewGame (jumpTicks n)).dinosaurY < 350) ∧
      (run NewGame (jumpTicks 31)).dinosaurY = 350 ∧
      (run NewGame (jumpTicks 31)).jumpFlg = false := by
  refine ⟨jumpInv_bounds _ _ _ (reachable_jumpInv h), by decide, ?_, by decide, by decide⟩
  intro n h1 h2
  interval_cases n <;> decide

/-- Witness of C16: the reachable state at the top of a jump. -/
theorem C16_height_bounds_witness :
    Reachable (run NewGame (jumpTicks 15)) ∧
      (230 ≤ (run NewGame (jumpTicks 15)).dinosaurY ∧
        (run NewGame (jumpTicks 15)).dinosaurY ≤ 350) :=
  ⟨reachable_run Reachable.start (jumpTicks 15),
    (C16_height_bounds (run NewGame (jumpTicks 15))
      (reachable_run Reachable.start (jumpTicks 15))).1⟩

/-! ## The obstacle loop: the shape of its result -/

theorem scroll_of_visible (t : tree) (h : t.visible = true) :
    t.scroll = if (t.move speed).isOutOfScreen then (t.move speed).hide else t.move speed := by
  unfold tree.scroll; rw [if_pos h]

theorem scroll_of_hidden (t : tree) (h : t.visible = false) : t.scroll = t := by
  unfold tree.scroll; rw [if_neg (by simp [h])]

/-- A slot that is visible after `scroll` was visible before, has moved by 6
and is not left of `-50`. -/
theorem scroll_visible (t : tree) (h : t.scroll.visible = true) :
    t.visible = true ∧ t.scroll.x = t.x - 6 ∧ -50 ≤ t.scroll.x := by
  cases hv : t.visible with
  | false => rw [scroll_of_hidden t hv, hv] at h; exact absurd h (by decide)
  | true =>
    rw [scroll_of_visible t hv] at h ⊢
    by_cases ho : (t.move speed).x < -50
    · simp [tree.isOutOfScreen, ho, tree.hide] at h
    · simp only [tree.isOutOfScreen, ho, decide_False, Bool.false_eq_true, if_false]
      refine ⟨trivial, rfl, ?_⟩
      omega

/-- Either no slot is shown, every slot is scrolled and `lastTreeX` is kept;
or the spawn tests hold, the slots before the one shown are scrolled, the
slots after it are untouched and `lastTreeX` is the tick counter. -/
theorem treeLoop_result (count : Int) (rnd : Nat → Nat) (l : Int) (ts : List tree) :
    ∀ k : Nat,
      treeLoop count rnd l k ts = (ts.map tree.scroll, l) ∨
      ((count - l > minTreeDist ∧ count.tmod interval = 0) ∧
        ∃ (pre : List tree) (t : tree) (post : List tree) (r : Int),
          ts = pre ++ t :: post ∧ t.visible = false ∧
          treeLoop count rnd l k ts = (pre.map tree.scroll ++ t.show r :: post, count)) := by
  induction ts with
  | nil => intro k; left; simp [treeLoop]
  | cons t ts ih =>
    intro k
    cases hv : t.visible with
    | true =>
      rw [treeLoop_cons_visible count rnd l k t ts hv, ← scroll_of_visible t hv]
      rcases ih k with e | ⟨hc, pre, t0, post, r, e1, e2, e3⟩
      · left; rw [e]; rfl
      · right
        refine ⟨hc, t :: pre, t0, post, r, by rw [e1]; rfl, e2, ?_⟩
        rw [e3]; rfl
    | false =>
      by_cases hc : count - l > minTreeDist ∧ count.tmod interval = 0
      · by_cases hd : rnd k % 10 = 0
        · right
          rw [treeLoop_cons_spawn count rnd l k t ts hv hc hd]
          exact ⟨hc, [], t, ts, _, rfl, hv, rfl⟩
        · rw [treeLoop_cons_fail count rnd l k t ts hv hc hd]
          rcases ih (k + 1) with e | ⟨_, pre, t0, post, r, e1, e2, e3⟩
          · left; rw [e, List.map_cons, scroll_of_hidden t hv]
          · right
            refine ⟨hc, t :: pre, t0, post, r, by rw [e1]; rfl, e2, ?_⟩
            rw [e3, List.map_cons, scroll_of_hidden t hv]; rfl
      · rw [treeLoop_cons_gate count rnd l k t ts hv hc]
        rcases ih k with e | ⟨hc2, _⟩
        · left; rw [e, List.map_cons, scroll_of_hidden t hv]
        · exact absurd hc2 hc

theorem shownAt_map_scroll (ts : List tree) : ∀ i, shownAt ts (ts.map tree.scroll) i = false := by
  induction ts with
  | nil => intro i; simp [shownAt]
  | cons t ts ih =>
    intro i
    cases i with
    | zero =>
      rw [List.map_cons, shownAt_cons_zero]
      cases hv : t.visible with
      | true => rfl
      | false => rw [scroll_of_hidden t hv, hv]; rfl
    | succ i => rw [List.map_cons, shownAt_cons_succ]; exact ih i

theorem shownAt_at_spawn (pre post : List tree) (t : tree) (r : Int)
    (hv : t.visible = false) :
    shownAt (pre ++ t :: post) (pre.map tree.scroll ++ t.show r :: post) pre.length = true := by
  induction pre with
  | nil =>
    simp only [List.nil_append, List.map_nil, List.length_nil]
    rw [shownAt_cons_zero, hv, (show_props t r).2.2.1]
    rfl
  | cons p pre ih =>
    simp only [List.cons_append, List.map_cons, List.length_cons]
    rw [shownAt_cons_succ]
    exact ih

theorem spawned_of_no_shownAt (g g' : Game) (h : ∀ i, shownAt g.trees g'.trees i = false) :
    spawned g g' = false := by
  cases hs : spawned g g' with
  | false => rfl
  | true =>
    unfold spawned at hs
    obtain ⟨i, _, hi⟩ := List.any_eq_true.mp hs
    rw [h i] at hi
    exact absurd hi (by decide)

theorem spawned_self (g g' : Game) (h : g'.trees = g.trees) : spawned g g' = false :=
  spawned_of_no_shownAt g g' (fun i => by rw [h]; exact shownAt_self g.trees i)

/-- In a playing tick either nothing is spawned, the pool is scrolled and
`lastTreeX` is kept, or something is spawned, the spawn tests hold and
`lastTreeX` becomes the tick counter. -/
theorem playing_spawn_cases (g : Game) (key : Bool) (rnd : Nat → Nat) :
    (spawned g (g.playing key rnd) = false ∧
        (g.playing key rnd).trees = g.trees.map tree.scroll ∧
        (g.playing key rnd).lastTreeX = g.lastTreeX) ∨
      (spawned g (g.playing key rnd) = true ∧
        (g.count + 1 - g.lastTreeX > minTreeDist ∧ (g.count + 1).tmod interval = 0) ∧
        (g.playing key rnd).lastTreeX = g.count + 1 ∧
        ∃ (pre : List tree) (t : tree) (post : List tree) (r : Int),
          g.trees = pre ++ t :: post ∧ t.visible = false ∧
          (g.playing key rnd).trees = pre.map tree.scroll ++ t.show r :: post) := by
  rcases treeLoop_result (g.count + 1) rnd g.lastTreeX g.trees 0 with
    e | ⟨hc, pre, t, post, r, e1, e2, e3⟩
  · left
    have ht : (g.playing key rnd).trees = g.trees.map tree.scroll := by
      rw [playing_trees, e]
    refine ⟨?_, ht, by rw [playing_lastTreeX, e]⟩
    exact spawned_of_no_shownAt _ _ (fun i => by rw [ht]; exact shownAt_map_scroll g.trees i)
  · right
    have ht : (g.playing key rnd).trees = pre.map tree.scroll ++ t.show r :: post := by
      rw [playing_trees, e3]
    refine ⟨?_, hc, by rw [playing_lastTreeX, e3], pre, t, post, r, e1, e2, ht⟩
    unfold spawned
    refine List.any_eq_true.mpr ⟨pre.length, ?_, ?_⟩
    · rw [List.mem_range, e1, List.length_append, List.length_cons]; omega
    · rw [ht]
      have := shownAt_at_spawn pre post t r e2
      rw [← e1] at this
      exact this

/-! ## The log of spawns -/

/-- The four cases of `Update`, the last one for a mode that is none of the
three. -/
theorem Update_modes (g : Game) (key : Bool) (rnd : Nat → Nat) :
    (g.mode = modeTitle ∧ g.Update key rnd = if key then { g with mode := modeGame } else g) ∨
    (g.mode = modeGame ∧ g.Update key rnd = g.playing key rnd) ∨
    (g.mode = modeGameover ∧
      g.Update key rnd = if key then { g.init with mode := modeGame } else g) ∨
    (g.mode ≠ modeGameover ∧ g.Update key rnd = g) := by
  by_cases h0 : g.mode = modeTitle
  · exact Or.inl ⟨h0, Update_title g key rnd h0⟩
  by_cases h1 : g.mode = modeGame
  · exact Or.inr (Or.inl ⟨h1, Update_game g key rnd h1⟩)
  by_cases h2 : g.mode = modeGameover
  · exact Or.inr (Or.inr (Or.inl ⟨h2, Update_gameover g key rnd h2⟩))
  · exact Or.inr (Or.inr (Or.inr ⟨h2, Update_other g key rnd h0 h1 h2⟩))

theorem logInv_step (g : Game) (acc : List Int) (key : Bool) (rnd : Nat → Nat)
    (hcount : 0 ≤ g.count) (h : LogInv g acc) :
    LogInv (g.Update key rnd)
      (if g.mode = modeGameover ∧ key = true then []
        else if spawned g (g.Update key rnd) then (g.Update key rnd).count :: acc
        else acc) := by
  obtain ⟨h1, h2, h3, h4, h5, h6, h7⟩ := h
  rcases Update_modes g key rnd with ⟨hm, e⟩ | ⟨hm, e⟩ | ⟨hm, e⟩ | ⟨hm, e⟩
  · have hne : ¬ (g.mode = modeGameover ∧ key = true) := by
      rw [hm]; intro hh; exact absurd hh.1 (by decide)
    have ht : (g.Update key rnd).trees = g.trees := by rw [e]; split_ifs <;> rfl
    rw [if_neg hne, spawned_self g _ ht]
    simp only [Bool.false_eq_true, if_false]
    rw [e]
    split_ifs <;> exact ⟨h1, h2, h3, h4, h5, h6, h7⟩
  · have hne : ¬ (g.mode = modeGameover ∧ key = true) := by
      rw [hm]; intro hh; exact absurd hh.1 (by decide)
    rw [if_neg hne, e]
    rcases playing_spawn_cases g key rnd with ⟨s, _, hl⟩ | ⟨s, hc, hl, _⟩
    · rw [s]
      simp only [Bool.false_eq_true, if_false]
      refine ⟨?_, ?_, ?_, ?_, ?_, h6, h7⟩
      · rw [hl]; exact h1
      · rw [hl, playing_count]; omega
      · rw [hl]; exact h3
      · rw [hl]; exact h4
      · rw [hl]; exact h5
    · rw [s]
      simp only [if_true]
      rw [playing_count]
      have hmod : (g.count + 1) % 10 = 0 := by
        have := hc.2
        rw [interval, Int.tmod_eq_emod (by omega) (by decide)] at this
        exact this
      have hgap : g.lastTreeX + 60 ≤ g.count + 1 := by
        have := hc.1
        rw [minTreeDist] at this
        omega
      refine ⟨?_, ?_, ?_, ?_, ?_, ?_, ?_⟩
      · rw [hl]; omega
      · rw [hl, playing_count]
      · rw [hl]; exact hmod
      · intro hh; exact absurd hh (List.cons_ne_nil _ _)
      · intro c hcm
        simp only [List.head?_cons, Option.mem_def, Option.some.injEq] at hcm
        rw [hl, ← hcm]
      · intro c hcm
        rcases List.mem_cons.mp hcm with hh | hh
        · rw [hh]; exact ⟨hmod, by omega⟩
        · exact h6 c hh
      · apply List.Chain'.cons' h7
        intro y hy
        rw [h5 y hy]
        exact hgap
  · by_cases hk : key = true
    · rw [if_pos ⟨hm, hk⟩, e, if_pos hk]
      refine ⟨?_, ?_, ?_, ?_, ?_, ?_, ?_⟩
      · show (0 : Int) ≤ 0; exact le_refl _
      · show (0 : Int) ≤ 0; exact le_refl _
      · show (0 : Int) % 10 = 0; decide
      · intro _; rfl
      · intro c hcm; simp at hcm
      · intro c hcm; simp at hcm
      · exact List.chain'_nil
    · have hne : ¬ (g.mode = modeGameover ∧ key = true) := fun hh => hk hh.2
      rw [if_neg hne]
      have eg : g.Update key rnd = g := by rw [e, if_neg hk]
      rw [spawned_self g _ (by rw [eg]), eg]
      simp only [Bool.false_eq_true, if_false]
      exact ⟨h1, h2, h3, h4, h5, h6, h7⟩
  · have hne : ¬ (g.mode = modeGameover ∧ key = true) := fun hh => hm hh.1
    rw [if_neg hne, spawned_self g _ (by rw [e]), e]
    simp only [Bool.false_eq_true, if_false]
    exact ⟨h1, h2, h3, h4, h5, h6, h7⟩

theorem logInv_run (is : List Tick) :
    ∀ (g : Game) (acc : List Int), 0 ≤ g.count → LogInv g acc →
      (∀ c ∈ spawnLog g acc is, c % 10 = 0 ∧ 60 ≤ c) ∧
        List.Chain' (fun later earlier => earlier + 60 ≤ later) (spawnLog g acc is) := by
  induction is with
  | nil => intro g acc _ h; exact ⟨h.2.2.2.2.2.1, h.2.2.2.2.2.2⟩
  | cons i is ih =>
    intro g acc hc h
    unfold spawnLog
    apply ih
    · rcases Update_cases g i.1 i.2 with ⟨_, e⟩ | ⟨_, e⟩ | ⟨_, e⟩ | e <;> rw [e]
      · split_ifs <;> exact hc
      · rw [playing_count]; omega
      · split_ifs
        · exact le_refl _
        · exact hc
      · exact hc
    · exact logInv_step g acc i.1 i.2 hc h

/-- C17: along every run of `Update` ticks from `NewGame()`, the spawns of
the current session (since the last restart) happen at tick counts that are
multiples of 10 and at least 60, and two consecutive spawns are at least 60
ticks apart; in the run `stallTrace` followed by one more spawn the spawns are
at the ticks 60, 120 and 180. -/
theorem C17_spawn_spacing (is : List Tick) :
    (∀ c ∈ spawnLog NewGame [] is, c % 10 = 0 ∧ 60 ≤ c) ∧
      List.Chain' (fun later earlier => earlier + 60 ≤ later) (spawnLog NewGame [] is) ∧
      spawnLog NewGame [] (stallTrace ++ [spawnTick]) = [180, 120, 60] := by
  have h0 : LogInv NewGame [] := by
    refine ⟨by decide, by decide, by decide, fun _ => rfl, ?_, ?_, List.chain'_nil⟩
    · intro c hc; simp at hc
    · intro c hc; simp at hc
  obtain ⟨h1, h2⟩ := logInv_run is NewGame [] (by decide) h0
  exact ⟨h1, h2, by decide⟩

/-- Witness of C17: the spawn at tick 180 of the run `stallTrace` followed by
one more spawn. -/
theorem C17_spawn_spacing_witness :
    (180 : Int) ∈ spawnLog NewGame [] (stallTrace ++ [spawnTick]) ∧
      ((180 : Int) % 10 = 0 ∧ (60 : Int) ≤ 180) :=
  ⟨by decide, (C17_spawn_spacing (stallTrace ++ [spawnTick])).1 180 (by decide)⟩

/-! ## At most two visible obstacles -/

theorem farApart_scroll (a b : tree) (h : farApart a b) : farApart a.scroll b.scroll := by
  intro ha hb
  obtain ⟨ha1, ha2, _⟩ := scroll_visible a ha
  obtain ⟨hb1, hb2, _⟩ := scroll_visible b hb
  rcases h ha1 hb1 with h | h
  · left; omega
  · right; omega

theorem treeInv_fresh (c : Int) (hc : 0 ≤ c) (g : Game) (hl : g.lastTreeX = 0)
    (hcount : g.count = c) (ht : g.trees = List.replicate maxTreeCount tree.zero) :
    TreeInv g := by
  have hh : ∀ t ∈ g.trees, t.visible = false := by
    intro t hm
    rw [ht] at hm
    rw [List.eq_of_mem_replicate hm]
    rfl
  refine ⟨by omega, by omega, by omega, ?_, ?_⟩
  · intro t hm hv
    rw [hh t hm] at hv
    exact absurd hv (by decide)
  · apply List.Pairwise.imp_mem.mpr
    apply List.pairwise_of_forall
    intro a _ ha _ hva
    rw [hh a ha] at hva
    exact absurd hva (by decide)

theorem treeInv_playing (g : Game) (key : Bool) (rnd : Nat → Nat) (hcount : 0 ≤ g.count)
    (h : TreeInv g) : TreeInv (g.playing key rnd) := by
  obtain ⟨h1, h2, h3, h4, h5⟩ := h
  rcases playing_spawn_cases g key rnd with
    ⟨_, ht, hl⟩ | ⟨_, hc, hl, pre, t, post, r, e1, e2, ht⟩
  · refine ⟨by rw [hl]; exact h1, by rw [hl, playing_count]; omega, by rw [hl]; exact h3, ?_, ?_⟩
    · intro t' hm hv
      rw [ht] at hm
      obtain ⟨t, hmt, rfl⟩ := List.mem_map.mp hm
      obtain ⟨hv1, hx, hb⟩ := scroll_visible t hv
      have := h4 t hmt hv1
      rw [hl, playing_count]
      refine ⟨hb, ?_⟩
      omega
    · rw [ht, List.pairwise_map]
      exact h5.imp (fun {a b} hab => farApart_scroll a b hab)
  · have hgap : g.lastTreeX + 60 ≤ g.count + 1 := by
      have hmod : (g.count + 1) % 10 = 0 := by
        have := hc.2
        rw [interval, Int.tmod_eq_emod (by omega) (by decide)] at this
        exact this
      have := hc.1
      rw [minTreeDist] at this
      omega
    have hmod : (g.count + 1) % 10 = 0 := by
      have := hc.2
      rw [interval, Int.tmod_eq_emod (by omega) (by decide)] at this
      exact this
    have hold : ∀ a ∈ g.trees, a.visible = true → -50 ≤ a.x ∧ a.x ≤ 286 := by
      intro a ha hva
      have := h4 a ha hva
      omega
    have hpre : ∀ a ∈ pre, a ∈ g.trees := by
      intro a ha; rw [e1]; exact List.mem_append_left _ ha
    have hpost : ∀ a ∈ post, a ∈ g.trees := by
      intro a ha; rw [e1]; exact List.mem_append_right _ (List.mem_cons_of_mem _ ha)
    obtain ⟨sx, _, sv, _, _⟩ := show_props t r
    rw [e1, List.pairwise_append, List.pairwise_cons] at h5
    obtain ⟨p1, ⟨_, p3⟩, p4⟩ := h5
    refine ⟨by rw [hl]; omega, by rw [hl, playing_count], by rw [hl]; exact hmod, ?_, ?_⟩
    · intro t' hm hv
      rw [hl, playing_count]
      rw [ht] at hm
      rcases List.mem_append.mp hm with hm1 | hm2
      · obtain ⟨a, hma, rfl⟩ := List.mem_map.mp hm1
        obtain ⟨hv1, hx, hb⟩ := scroll_visible a hv
        have := hold a (hpre a hma) hv1
        refine ⟨hb, ?_⟩
        omega
      · rcases List.mem_cons.mp hm2 with hs | hp
        · rw [hs, sx]; omega
        · have := hold t' (hpost t' hp) hv
          omega
    · rw [ht, List.pairwise_append, List.pairwise_cons]
      refine ⟨?_, ⟨?_, p3⟩, ?_⟩
      · rw [List.pairwise_map]
        exact p1.imp (fun {a b} hab => farApart_scroll a b hab)
      · intro b hb _ hvb
        have := hold b (hpost b hb) hvb
        right; rw [sx]; omega
      · intro a' ha' b hb hva hvb
        obtain ⟨a, hma, rfl⟩ := List.mem_map.mp ha'
        obtain ⟨hv1, hx, hbd⟩ := scroll_visible a hva
        have hba := hold a (hpre a hma) hv1
        rcases List.mem_cons.mp hb with hs | hp
        · left; rw [hs, sx]; omega
        · have hbb := hold b (hpost b hp) hvb
          have := p4 a hma b (List.mem_cons_of_mem _ hp) hv1 hvb
          omega

theorem reachable_treeInv {g : Game} (h : Reachable g) : 0 ≤ g.count ∧ TreeInv g := by
  induction h with
  | start => exact ⟨by decide, treeInv_fresh 0 (le_refl _) NewGame rfl rfl rfl⟩
  | tick g key rnd _ ih =>
    obtain ⟨hc, hi⟩ := ih
    rcases Update_cases g key rnd with ⟨_, e⟩ | ⟨_, e⟩ | ⟨_, e⟩ | e <;> rw [e]
    · split_ifs <;> exact ⟨hc, hi⟩
    · exact ⟨by rw [playing_count]; omega, treeInv_playing g key rnd hc hi⟩
    · split_ifs
      · exact ⟨le_refl _, treeInv_fresh 0 (le_refl _) _ rfl rfl rfl⟩
      · exact ⟨hc, hi⟩
    · exact ⟨hc, hi⟩

/-- Counterexample to C18 as stated: at tick 60 of a fresh session the draws
for the slots 0 and 1 fail and the draw for slot 2 succeeds, so the third slot
`trees[2]` is visible in a reachable state. -/
theorem C18_counterexample :
    Reachable ((run NewGame waitTrace).Update false thirdDrawWins) ∧
      ((run NewGame waitTrace).Update false thirdDrawWins).trees.map tree.visible
        = [false, false, true] :=
  ⟨Reachable.tick _ false thirdDrawWins (reachable_run Reachable.start waitTrace), by decide⟩

/-- C18 (amended): in every state reachable from `NewGame()` by `Update` ticks
at most two obstacle slots are visible at the same time. -/
theorem C18_at_most_two_visible (g : Game) (h : Reachable g) :
    (g.trees.filter (fun t => t.visible)).length ≤ 2 := by
  obtain ⟨_, _, h2, _, h4, h5⟩ := reachable_treeInv h
  have hp : (g.trees.filter (fun t => t.visible)).Pairwise farApart := h5.filter _
  have hv : ∀ t ∈ g.trees.filter (fun t => t.visible), t.visible = true ∧ -50 ≤ t.x ∧ t.x ≤ 640 := by
    intro t ht
    obtain ⟨hm, hvis⟩ := List.mem_filter.mp ht
    have := h4 t hm hvis
    exact ⟨hvis, this.1, by omega⟩
  generalize g.trees.filter (fun t => t.visible) = vs at hp hv
  rcases vs with _ | ⟨a, _ | ⟨b, _ | ⟨c, rest⟩⟩⟩
  · simp
  · simp
  · simp
  · exfalso
    have ha := hv a (by simp)
    have hb := hv b (by simp)
    have hc := hv c (by simp)
    rw [List.pairwise_cons, List.pairwise_cons] at hp
    have hab := hp.1 b (by simp) ha.1 hb.1
    have hac := hp.1 c (by simp) ha.1 hc.1
    have hbc := hp.2.1 c (by simp) hb.1 hc.1
    omega

/-- Witness of C18 (amended): after `stallTrace` and one more spawn the slots 0
and 1 are both visible, in a reachable state. -/
theorem C18_at_most_two_visible_witness :
    Reachable (run NewGame (stallTrace ++ [spawnTick])) ∧
      (run NewGame (stallTrace ++ [spawnTick])).trees.map tree.visible = [true, true, false] ∧
      ((run NewGame (stallTrace ++ [spawnTick])).trees.filter (fun t => t.visible)).length ≤ 2 :=
  ⟨reachable_run Reachable.start _, by decide,
    C18_at_most_two_visible _ (reachable_run Reachable.start _)⟩

end DinosaurJump
